import Mathlib

/-!
Verification of the room-orchestration core of the ConfrenceRTC signaling
server.  The definitions below are a shallow embedding of the socket.io
event handlers of `src/server.js` (rooms / peers / timers / codeStore maps
and the `join-room`, `approve-join`, `deny-join`, `disconnect`, `produce`,
`code-get`, `code-set` handlers, plus the `setTimeout` grace-period timer),
and of the chat handlers of the `part_004` variant.  Socket ids, room ids
and media-engine handle ids are modelled as `Nat`; JS `Map`s as association
lists with JS `Map` semantics (`aset` replaces in place or appends).
-/

namespace ConfRTC

/-- Association-list lookup, mirroring JS `Map.prototype.get`. -/
def alookup {α : Type} : List (Nat × α) → Nat → Option α
  | [], _ => none
  | p :: rest, k => if p.1 == k then some p.2 else alookup rest k

/-- Association-list update, mirroring JS `Map.prototype.set`: replaces the
value in place when the key is present, otherwise appends (JS `Map` keeps
insertion order). -/
def aset {α : Type} : List (Nat × α) → Nat → α → List (Nat × α)
  | [], k, v => [(k, v)]
  | p :: rest, k, v => if p.1 == k then (k, v) :: rest else p :: aset rest k v

/-- Association-list removal, mirroring JS `Map.prototype.delete`. -/
def adel {α : Type} (l : List (Nat × α)) (k : Nat) : List (Nat × α) :=
  l.filter (fun p => p.1 != k)

/-- Entry of `room.producers` in `server.js`: `{ socketId, producer }`, with
the mediasoup producer object flattened to its `id` and its
`appData.mediaTag`. -/
structure ProducerRecord where
  socketId   : Nat
  producerId : Nat
  mediaTag   : String
  deriving Repr, DecidableEq

/-- A room as stored in the `rooms` map of `server.js`:
`{ ownerId, participants[], waiting[], producers[] }`. -/
structure Room where
  ownerId      : Nat
  participants : List Nat
  waiting      : List Nat
  producers    : List ProducerRecord
  deriving Repr, DecidableEq

/-- Entry of the `peers` map of `server.js`:
`{ transports[], producers[], consumers[] }`, each handle flattened to an id. -/
structure Peer where
  transports : List Nat
  producers  : List Nat
  consumers  : List Nat
  deriving Repr, DecidableEq

/-- The in-memory state of `server.js`.  `socketRoom` models the
`socket.roomId` field of each socket object (absence = `null`); `timers` is
the `timers` map (roomId → latest timeout id); `pending` is the set of
timeouts that have been scheduled by `setTimeout` and neither cleared by
`clearTimeout` nor fired, each with the room id its callback captured;
`connected` is the set of currently connected sockets and `usedIds` every
socket id ever issued (socket.io never reuses an id).  The `next*` counters
produce fresh timeout / transport / producer ids. -/
structure SrvState where
  rooms         : List (Nat × Room)
  peers         : List (Nat × Peer)
  socketRoom    : List (Nat × Nat)
  timers        : List (Nat × Nat)
  pending       : List (Nat × Nat)
  codeStore     : List (Nat × String)
  connected     : List Nat
  usedIds       : List Nat
  nextTimer     : Nat
  nextTransport : Nat
  nextProducer  : Nat
  deriving Repr, DecidableEq

/-- Outbound socket.io emissions of `server.js`.  `io.to(id).emit(...)`
becomes a single-recipient emission; `io.to(idArray).emit(...)` keeps the
whole recipient list. -/
inductive Emit where
  | joinRequest     (recipient : Nat) (socketId : Nat)
  | joinApproved    (recipient : Nat) (existingProducers : List (Nat × Nat × String))
  | joinDenied      (recipient : Nat)
  | newProducer     (recipient : Nat) (producerId : Nat) (socketId : Nat) (mediaTag : String)
  | participantLeft (recipients : List Nat) (socketId : Nat)
  | roomClosed      (recipients : List Nat)
  | codeUpdate      (roomChannel : Nat) (text : String)
  deriving Repr, DecidableEq

/-- Callback payloads (`cb(...)`) of the `server.js` handlers.  Handlers
that take no callback answer `noReply`; `cb({ error: ... })` becomes
`errorReply`. -/
inductive Reply where
  | noReply
  | joinedOwner      (existingProducers : List (Nat × Nat × String))
  | joinedPending
  | transportCreated (id : Nat)
  | producedOk       (id : Nat)
  | codeText         (text : String)
  | errorReply       (msg : String)
  deriving Repr, DecidableEq

/-- Inbound events handled by `server.js`: socket lifecycle, the room
orchestration requests, `produce`/`createTransport`, the collaborative-IDE
requests, and the firing of a scheduled grace-period timeout. -/
inductive Event where
  | connect         (s : Nat)
  | joinRoom        (s : Nat) (roomId : Nat)
  | approveJoin     (s : Nat) (targetSocketId : Nat)
  | denyJoin        (s : Nat) (targetSocketId : Nat)
  | disconnect      (s : Nat)
  | createTransport (s : Nat)
  | produce         (s : Nat) (transportId : Nat) (mediaTag : String)
  | timerFire       (timeoutId : Nat)
  | codeGet         (s : Nat) (roomId : Nat)
  | codeSet         (s : Nat) (roomId : Nat) (text : String)
  deriving Repr, DecidableEq

/-- Result of one handler invocation: the new server state, the emissions
performed, and the callback reply.  `none` means the event cannot occur
(event from a dead socket, reuse of a socket id, firing of a cleared
timeout) or that the JS handler would throw. -/
abbrev HResult := Option (SrvState × List Emit × Reply)

/-- Handler for `io.on('connection', ...)` in `server.js`: registers an
empty resource ledger in `peers` and initializes `socket.roomId = null`
(modelled as absence from `socketRoom`). -/
def onConnect (st : SrvState) (s : Nat) : HResult :=
  if s ∈ st.usedIds then none else
  some ({ st with
            peers := aset st.peers s ⟨[], [], []⟩,
            connected := st.connected ++ [s],
            usedIds := st.usedIds ++ [s] }, [], .noReply)

/-- Effect of `if (timers.has(roomId)) clearTimeout(timers.get(roomId))`
at the top of the `join-room` handler: the timeout currently recorded for
`roomId` (if any) is removed from the scheduled set. -/
def clearPending (st : SrvState) (roomId : Nat) : List (Nat × Nat) :=
  match alookup st.timers roomId with
  | some t => st.pending.filter (fun q => q.1 != t)
  | none   => st.pending

/-- Handler for `socket.on('join-room', ...)` in `server.js`: first
`if (timers.has(roomId)) clearTimeout(timers.get(roomId))`; then either
creates the room with the requester as owner, or appends the requester to
`waiting` and notifies the owner. -/
def onJoinRoom (st : SrvState) (s roomId : Nat) : HResult :=
  if s ∉ st.connected then none else
  let pending' := clearPending st roomId
  match alookup st.rooms roomId with
  | none =>
      some ({ st with
                rooms := aset st.rooms roomId ⟨s, [s], [], []⟩,
                socketRoom := aset st.socketRoom s roomId,
                pending := pending' }, [], .joinedOwner [])
  | some room =>
      some ({ st with
                rooms := aset st.rooms roomId { room with waiting := room.waiting ++ [s] },
                pending := pending' },
            [.joinRequest room.ownerId s], .joinedPending)

/-- Handler for `socket.on('approve-join', ...)` in `server.js`: returns
early when the caller's `socket.roomId` is unset; otherwise removes the
target from `waiting`, appends it to `participants`, emits `join-approved`
with the existing-producer directory, and, when the target socket is still
connected, sets its `roomId`.  The JS code would throw if the caller's
`roomId` names a deleted room (`rooms.get` yields `undefined`): that case
is `none`. -/
def onApproveJoin (st : SrvState) (s targetSocketId : Nat) : HResult :=
  if s ∉ st.connected then none else
  match alookup st.socketRoom s with
  | none => some (st, [], .noReply)
  | some roomId =>
    match alookup st.rooms roomId with
    | none => none
    | some room =>
      let room' : Room :=
        { room with
            waiting := room.waiting.filter (fun id => id != targetSocketId),
            participants := room.participants ++ [targetSocketId] }
      let existing := (room.producers.filter (fun p => p.socketId != targetSocketId)).map
          (fun p => (p.producerId, p.socketId, p.mediaTag))
      let st1 := { st with rooms := aset st.rooms roomId room' }
      let st2 := if targetSocketId ∈ st.connected
                 then { st1 with socketRoom := aset st1.socketRoom targetSocketId roomId }
                 else st1
      some (st2, [.joinApproved targetSocketId existing], .noReply)

/-- Handler for `socket.on('deny-join', ...)` in `server.js`: a single
`io.to(targetSocketId).emit('join-denied')`, no state change. -/
def onDenyJoin (st : SrvState) (s targetSocketId : Nat) : HResult :=
  if s ∉ st.connected then none else
  some (st, [.joinDenied targetSocketId], .noReply)

/-- Handler for `socket.on('disconnect', ...)` in `server.js`: owner
disconnect schedules a 30 s `setTimeout` (fresh timeout id recorded in
`timers` and `pending`); non-owner disconnect prunes `participants` and
`producers` and broadcasts `participant-left`; in every branch the peer
ledger entry is deleted. -/
def onDisconnect (st : SrvState) (s : Nat) : HResult :=
  if s ∉ st.connected then none else
  let stg := { st with connected := st.connected.filter (fun x => x != s) }
  match alookup st.socketRoom s with
  | none => some ({ stg with peers := adel stg.peers s }, [], .noReply)
  | some roomId =>
    match alookup st.rooms roomId with
    | none => some ({ stg with peers := adel stg.peers s }, [], .noReply)
    | some room =>
      if s == room.ownerId then
        some ({ stg with
                  timers := aset stg.timers roomId stg.nextTimer,
                  pending := stg.pending ++ [(stg.nextTimer, roomId)],
                  nextTimer := stg.nextTimer + 1,
                  peers := adel stg.peers s }, [], .noReply)
      else
        let room' := { room with
                         participants := room.participants.filter (fun id => id != s),
                         producers := room.producers.filter (fun p => p.socketId != s) }
        some ({ stg with
                  rooms := aset stg.rooms roomId room',
                  peers := adel stg.peers s },
              [.participantLeft room'.participants s], .noReply)

/-- Firing of a grace-period timeout scheduled by the disconnect handler of
`server.js`: `io.to(room.participants).emit('room-closed'); rooms.delete(roomId)`.
Only a timeout that is still `pending` (neither cleared nor already fired)
can fire. -/
def onTimerFire (st : SrvState) (t : Nat) : HResult :=
  match st.pending.find? (fun q => q.1 == t) with
  | none => none
  | some q =>
    let stp := { st with pending := st.pending.filter (fun q2 => q2.1 != t) }
    match alookup st.rooms q.2 with
    | some room =>
        some ({ stp with rooms := adel stp.rooms q.2 }, [.roomClosed room.participants], .noReply)
    | none => some (stp, [.roomClosed []], .noReply)

/-- Handler for `socket.on('createTransport', ...)` in `server.js`,
restricted to the bookkeeping the claims depend on: a fresh transport
handle is appended to the caller's ledger and its id returned. -/
def onCreateTransport (st : SrvState) (s : Nat) : HResult :=
  if s ∉ st.connected then none else
  match alookup st.peers s with
  | none => none
  | some peer =>
      some ({ st with
                peers := aset st.peers s { peer with transports := peer.transports ++ [st.nextTransport] },
                nextTransport := st.nextTransport + 1 },
            [], .transportCreated st.nextTransport)

/-- Handler for `socket.on('produce', ...)` in `server.js`: unknown
transport id answers `cb({ error: 'transport not found' })`; otherwise a
fresh producer is created and pushed on the peer ledger; then, only when
`socket.roomId` is set, a `ProducerRecord` is pushed on that room and
`newProducer` is emitted to every entry of `participants` other than the
caller; finally `cb({ id })`.  A set `roomId` naming a deleted room would
make the JS handler throw (`none`). -/
def onProduce (st : SrvState) (s transportId : Nat) (mediaTag : String) : HResult :=
  if s ∉ st.connected then none else
  match alookup st.peers s with
  | none => none
  | some peer =>
    if transportId ∉ peer.transports then
      some (st, [], .errorReply "transport not found")
    else
      let pid := st.nextProducer
      let st1 := { st with
                     peers := aset st.peers s { peer with producers := peer.producers ++ [pid] },
                     nextProducer := st.nextProducer + 1 }
      match alookup st.socketRoom s with
      | none => some (st1, [], .producedOk pid)
      | some roomId =>
        match alookup st1.rooms roomId with
        | none => none
        | some room =>
          let room' := { room with producers := room.producers ++ [⟨s, pid, mediaTag⟩] }
          let fanout := (room.participants.filter (fun id => id != s)).map
              (fun id => Emit.newProducer id pid s mediaTag)
          some ({ st1 with rooms := aset st1.rooms roomId room' }, fanout, .producedOk pid)

/-- Handler for `socket.on('code-get', ...)` in `server.js`:
`cb(codeStore.get(roomId) ?? '')`. -/
def onCodeGet (st : SrvState) (s roomId : Nat) : HResult :=
  if s ∉ st.connected then none else
  some (st, [], .codeText ((alookup st.codeStore roomId).getD ""))

/-- Handler for `socket.on('code-set', ...)` in `server.js`: stores the
text and broadcasts `code-update` to the socket.io room channel. -/
def onCodeSet (st : SrvState) (s roomId : Nat) (text : String) : HResult :=
  if s ∉ st.connected then none else
  some ({ st with codeStore := aset st.codeStore roomId text },
        [.codeUpdate roomId text], .noReply)

/-- One step of the server: dispatch an inbound event to its handler. -/
def step (st : SrvState) : Event → HResult
  | .connect s              => onConnect st s
  | .joinRoom s r           => onJoinRoom st s r
  | .approveJoin s tgt      => onApproveJoin st s tgt
  | .denyJoin s tgt         => onDenyJoin st s tgt
  | .disconnect s           => onDisconnect st s
  | .createTransport s      => onCreateTransport st s
  | .produce s tid tag      => onProduce st s tid tag
  | .timerFire t            => onTimerFire st t
  | .codeGet s r            => onCodeGet st s r
  | .codeSet s r text       => onCodeSet st s r text

/-- The state of the freshly started server: every map empty. -/
def initState : SrvState := ⟨[], [], [], [], [], [], [], [], 0, 0, 0⟩

/-- Run a list of events, collecting all emissions and all replies in
order.  `none` when some event cannot occur / the handler would throw. -/
def runTrace (st : SrvState) : List Event → Option (SrvState × List Emit × List Reply)
  | [] => some (st, [], [])
  | e :: rest =>
    match step st e with
    | none => none
    | some (st1, out, rep) =>
      match runTrace st1 rest with
      | none => none
      | some (st2, outs, reps) => some (st2, out ++ outs, rep :: reps)

/-- Reachability of one server state from another by a sequence of events. -/
inductive Reaches : SrvState → SrvState → Prop
  | refl (st : SrvState) : Reaches st st
  | tail {st st1 st2 : SrvState} (e : Event) (out : List Emit) (rep : Reply) :
      Reaches st st1 → step st1 e = some (st2, out, rep) → Reaches st st2

/-- Check that the room named by `r` exists and that its owner is no longer
connected (the situation in which the disconnect handler has scheduled a
grace-period timeout for `r`). -/
def ownerGoneB (st : SrvState) (r : Nat) : Bool :=
  match alookup st.rooms r with
  | some room => !st.connected.contains room.ownerId
  | none => false

/-- Well-formedness of a server state, as established by the handlers of
`server.js`: connected sockets carry issued ids; every room's owner id was
issued; every pending grace timeout is the one currently recorded in the
`timers` map for its room, has an id below the fresh-id counter, and
watches an existing room whose owner is disconnected; and pending timeout
ids determine their room. -/
def Wf (st : SrvState) : Prop :=
  (∀ s ∈ st.connected, s ∈ st.usedIds) ∧
  (∀ p ∈ st.rooms, p.2.ownerId ∈ st.usedIds) ∧
  (∀ q ∈ st.pending, alookup st.timers q.2 = some q.1 ∧ q.1 < st.nextTimer ∧
      ownerGoneB st q.2 = true) ∧
  (∀ q ∈ st.pending, ∀ q2 ∈ st.pending, q.1 = q2.1 → q.2 = q2.2)

instance (st : SrvState) : Decidable (Wf st) := by
  unfold Wf
  exact inferInstance

/-- A timeout id that can never fire again: it is below the fresh-id
counter (so it will never be rescheduled) and is not pending. -/
def DeadTimer (t : Nat) (st : SrvState) : Prop :=
  t < st.nextTimer ∧ ∀ q ∈ st.pending, q.1 ≠ t

/-- A room that can never be torn down: it exists with owner `o`, no grace
timeout is pending for it, and `o` — the only socket whose disconnect could
schedule one — is gone for good (disconnected, and its id spent so it can
never reconnect). -/
def RoomAlive (r o : Nat) (st : SrvState) : Prop :=
  (∃ room, alookup st.rooms r = some room ∧ room.ownerId = o) ∧
  (∀ q ∈ st.pending, q.2 ≠ r) ∧
  o ∉ st.connected ∧ o ∈ st.usedIds

/-- Recognize a `code-set` event for room `r`. -/
def isCodeSetFor (r : Nat) : Event → Bool
  | .codeSet _ r' _ => r' == r
  | _ => false

/-- A room of the `part_004` variant, which additionally keeps the chat
moderation state: `{ ownerId, participants[], waiting[], producers[], muted:new Set() }`
(producers omitted — the chat handlers never touch them; the JS `Set` is a
duplicate-free list). -/
structure CRoom where
  ownerId      : Nat
  participants : List Nat
  waiting      : List Nat
  muted        : List Nat
  deriving Repr, DecidableEq

/-- JS `Set.prototype.add` on the duplicate-free list model. -/
def setAdd (l : List Nat) (x : Nat) : List Nat :=
  if x ∈ l then l else l ++ [x]

/-- JS `Set.prototype.delete` on the duplicate-free list model. -/
def setDel (l : List Nat) (x : Nat) : List Nat :=
  l.filter (fun y => y != x)

/-- Outbound emissions of the `part_004` chat handlers: `chat-recv` is an
`io.to(roomId)` broadcast to the room channel, `chat-perm` a targeted
delivery. -/
inductive CEmit where
  | chatRecv (roomChannel : Nat) (text : String) (fromLabel : String)
  | chatPerm (recipient : Nat) (enabled : Bool)
  deriving Repr, DecidableEq

/-- Handler for `socket.on('chat-send', ...)` in `part_004`: for an unknown
room id nothing happens; a sender in the room's muted set is silently
ignored; otherwise `chat-recv` is broadcast to the room channel.  The
handler takes no callback, mutates nothing, and never answers the sender:
its entire observable behavior is the returned emission list. -/
def chatSend (rooms : List (Nat × CRoom)) (senderId roomId : Nat)
    (text fromLabel : String) : List CEmit :=
  match alookup rooms roomId with
  | none => []
  | some room =>
      if room.muted.contains senderId then []
      else [.chatRecv roomId text fromLabel]

/-- Handler for `socket.on('chat-toggle', ...)` in `part_004`: only the
owner of the caller's room may toggle; `enable` deletes the target from the
muted set, otherwise it is added; `chat-perm` is sent to the target.
`none` models the JS throw when the caller's `roomId` names a deleted
room. -/
def chatToggle (rooms : List (Nat × CRoom)) (callerRoomId : Option Nat)
    (callerId targetId : Nat) (enable : Bool) :
    Option (List (Nat × CRoom) × List CEmit) :=
  match callerRoomId with
  | none => some (rooms, [])
  | some roomId =>
    match alookup rooms roomId with
    | none => none
    | some room =>
      if callerId != room.ownerId then some (rooms, [])
      else
        let room' := { room with
                         muted := if enable then setDel room.muted targetId
                                  else setAdd room.muted targetId }
        some (aset rooms roomId room', [.chatPerm targetId enable])

/-- Per-room disjointness of the waiting list and the participants list,
over every room in the registry. -/
def DisjAll (st : SrvState) : Prop :=
  ∀ p ∈ st.rooms, ∀ x ∈ p.2.waiting, x ∉ p.2.participants

instance (st : SrvState) : Decidable (DisjAll st) := by
  unfold DisjAll
  exact inferInstance

/-- Side condition singling out the one operation that can break
waiting/participants disjointness: a `join-room` for a known room issued by
a connection already among that room's participants. -/
def joinGuardB (st : SrvState) : Event → Bool
  | .joinRoom s r =>
      match alookup st.rooms r with
      | some room => !room.participants.contains s
      | none => true
  | _ => true

/-- Recognize a `newProducer` emission addressed to `j`. -/
def newProducerTo (j : Nat) : Emit → Bool
  | .newProducer rcpt _ _ _ => rcpt == j
  | _ => false

/-- A concrete reachable server state used by witnesses: room 7 owned by
connection 0 (sole participant), connection 1 waiting, both peers holding
one transport.  It is `runTrace initState [connect 0, joinRoom 0 7,
connect 1, joinRoom 1 7, createTransport 0, createTransport 1]`. -/
def wState : SrvState :=
  { rooms := [(7, ⟨0, [0], [1], []⟩)],
    peers := [(0, ⟨[0], [], []⟩), (1, ⟨[1], [], []⟩)],
    socketRoom := [(0, 7)],
    timers := [], pending := [], codeStore := [],
    connected := [0, 1], usedIds := [0, 1],
    nextTimer := 0, nextTransport := 2, nextProducer := 0 }

/-- The state `wState` with a third connection 2 registered (reachable by
appending `connect 2` to the trace producing `wState`). -/
def wStateB : SrvState :=
  { wState with connected := [0, 1, 2], usedIds := [0, 1, 2],
                peers := aset wState.peers 2 ⟨[], [], []⟩ }

/-- The state `wStateB` after connection 2 also joined room 7 (waiting list
`[1, 2]`). -/
def wStateB2 : SrvState :=
  { wStateB with rooms := aset wState.rooms 7 ⟨0, [0], [1, 2], []⟩,
                 pending := clearPending wState 7 }

/-- A concrete reachable server state used by the grace-period witness:
room 1 owned by the still-connected socket 0.  It is
`runTrace initState [connect 0, joinRoom 0 1]`. -/
def wState3 : SrvState :=
  { rooms := [(1, ⟨0, [0], [], []⟩)],
    peers := [(0, ⟨[], [], []⟩)],
    socketRoom := [(0, 1)],
    timers := [], pending := [], codeStore := [],
    connected := [0], usedIds := [0],
    nextTimer := 0, nextTransport := 0, nextProducer := 0 }

/-- A concrete reachable server state used by the fan-out witness: room 7
with owner 0 and approved participant 1, the owner holding transport 0.
It is `runTrace initState [connect 0, joinRoom 0 7, connect 1,
joinRoom 1 7, approveJoin 0 1, createTransport 0]`. -/
def wStateP : SrvState :=
  { rooms := [(7, ⟨0, [0, 1], [], []⟩)],
    peers := [(0, ⟨[0], [], []⟩), (1, ⟨[], [], []⟩)],
    socketRoom := [(0, 7), (1, 7)],
    timers := [], pending := [], codeStore := [],
    connected := [0, 1], usedIds := [0, 1],
    nextTimer := 0, nextTransport := 1, nextProducer := 0 }

/-- A concrete server state used by the code-store witness: room 7 live,
one `code-set` performed for room 9 and none for room 7.  It is
`runTrace initState [connect 0, joinRoom 0 7, codeSet 0 9 "x"]`. -/
def wStateCode : SrvState :=
  { rooms := [(7, ⟨0, [0], [], []⟩)],
    peers := [(0, ⟨[], [], []⟩)],
    socketRoom := [(0, 7)],
    timers := [], pending := [], codeStore := [(9, "x")],
    connected := [0], usedIds := [0],
    nextTimer := 0, nextTransport := 0, nextProducer := 0 }

/-- A concrete room table of the `part_004` variant used by the chat
witness: room 1 owned by 0, participants 0, 5 and 6, with 5 muted. -/
def wCRooms : List (Nat × CRoom) := [(1, ⟨0, [0, 5, 6], [], [5]⟩)]

/-! Helper lemmas about the JS-`Map` model. -/

theorem alookup_aset {α : Type} (l : List (Nat × α)) (k k' : Nat) (v : α) :
    alookup (aset l k v) k' = if k' = k then some v else alookup l k' := by
  induction l with
  | nil =>
    by_cases h : k' = k
    · simp [aset, alookup, h]
    · simp [aset, alookup, h, Ne.symm h]
  | cons p rest ih =>
    by_cases hp : p.1 = k
    · by_cases h : k' = k
      · subst h
        simp [aset, alookup, hp]
      · simp [aset, alookup, hp, h, Ne.symm h]
    · by_cases h : k' = k
      · subst h
        simp [aset, alookup, hp, ih]
      · simp [aset, alookup, hp, h, ih]

theorem alookup_adel {α : Type} (l : List (Nat × α)) (k k' : Nat) :
    alookup (adel l k) k' = if k' = k then none else alookup l k' := by
  induction l with
  | nil => simp [adel, alookup]
  | cons p rest ih =>
    simp only [adel] at ih
    by_cases hp : p.1 = k
    · by_cases h : k' = k
      · subst h
        simp [adel, alookup, hp, ih]
      · simp [adel, alookup, hp, h, ih, Ne.symm h]
    · by_cases h : k' = k
      · subst h
        simp [adel, alookup, hp, ih]
      · simp [adel, alookup, hp, h, ih]

theorem mem_aset {α : Type} {p : Nat × α} {l : List (Nat × α)} {k : Nat} {v : α}
    (h : p ∈ aset l k v) : p = (k, v) ∨ p ∈ l := by
  induction l with
  | nil => simpa [aset] using h
  | cons q rest ih =>
    by_cases hq : q.1 = k
    · simp [aset, hq] at h
      rcases h with h | h
      · exact Or.inl h
      · exact Or.inr (List.mem_cons_of_mem _ h)
    · simp [aset, hq] at h
      rcases h with h | h
      · exact Or.inr (by simp [h])
      · rcases ih h with h1 | h1
        · exact Or.inl h1
        · exact Or.inr (List.mem_cons_of_mem _ h1)

theorem mem_adel {α : Type} {p : Nat × α} {l : List (Nat × α)} {k : Nat}
    (h : p ∈ adel l k) : p ∈ l :=
  List.mem_of_mem_filter h

theorem alookup_mem {α : Type} {l : List (Nat × α)} {k : Nat} {v : α}
    (h : alookup l k = some v) : (k, v) ∈ l := by
  induction l with
  | nil => simp [alookup] at h
  | cons p rest ih =>
    by_cases hp : p.1 = k
    · simp [alookup, hp] at h
      subst h
      simp [← hp]
    · simp [alookup, hp] at h
      exact List.mem_cons_of_mem _ (ih h)

/-- Exhaustive inversion of `step`: every successful step is one of the
seventeen handler outcomes, with the produced state, emissions and reply
spelled out.  Every preservation argument below is driven by this lemma. -/
theorem stepCases {st st1 : SrvState} {e : Event} {out : List Emit} {rep : Reply}
    (h : step st e = some (st1, out, rep)) :
    (∃ s, e = .connect s ∧ s ∉ st.usedIds ∧
       st1 = { st with peers := aset st.peers s ⟨[], [], []⟩,
                       connected := st.connected ++ [s],
                       usedIds := st.usedIds ++ [s] } ∧ out = [] ∧ rep = .noReply) ∨
    (∃ s r, e = .joinRoom s r ∧ s ∈ st.connected ∧ alookup st.rooms r = none ∧
       st1 = { st with rooms := aset st.rooms r ⟨s, [s], [], []⟩,
                       socketRoom := aset st.socketRoom s r,
                       pending := clearPending st r } ∧
       out = [] ∧ rep = .joinedOwner []) ∨
    (∃ s r room, e = .joinRoom s r ∧ s ∈ st.connected ∧ alookup st.rooms r = some room ∧
       st1 = { st with rooms := aset st.rooms r { room with waiting := room.waiting ++ [s] },
                       pending := clearPending st r } ∧
       out = [.joinRequest room.ownerId s] ∧ rep = .joinedPending) ∨
    (∃ s tgt, e = .approveJoin s tgt ∧ s ∈ st.connected ∧
       alookup st.socketRoom s = none ∧ st1 = st ∧ out = [] ∧ rep = .noReply) ∨
    (∃ s tgt r room, e = .approveJoin s tgt ∧ s ∈ st.connected ∧
       alookup st.socketRoom s = some r ∧ alookup st.rooms r = some room ∧
       st1 = (if tgt ∈ st.connected then
                { st with rooms := aset st.rooms r
                            { room with waiting := room.waiting.filter (fun id => id != tgt),
                                        participants := room.participants ++ [tgt] },
                          socketRoom := aset st.socketRoom tgt r }
              else
                { st with rooms := aset st.rooms r
                            { room with waiting := room.waiting.filter (fun id => id != tgt),
                                        participants := room.participants ++ [tgt] } }) ∧
       out = [.joinApproved tgt ((room.producers.filter (fun p => p.socketId != tgt)).map
                (fun p => (p.producerId, p.socketId, p.mediaTag)))] ∧ rep = .noReply) ∨
    (∃ s tgt, e = .denyJoin s tgt ∧ s ∈ st.connected ∧
       st1 = st ∧ out = [.joinDenied tgt] ∧ rep = .noReply) ∨
    (∃ s, e = .disconnect s ∧ s ∈ st.connected ∧ alookup st.socketRoom s = none ∧
       st1 = { st with connected := st.connected.filter (fun x => x != s),
                       peers := adel st.peers s } ∧ out = [] ∧ rep = .noReply) ∨
    (∃ s r, e = .disconnect s ∧ s ∈ st.connected ∧ alookup st.socketRoom s = some r ∧
       alookup st.rooms r = none ∧
       st1 = { st with connected := st.connected.filter (fun x => x != s),
                       peers := adel st.peers s } ∧ out = [] ∧ rep = .noReply) ∨
    (∃ s r room, e = .disconnect s ∧ s ∈ st.connected ∧ alookup st.socketRoom s = some r ∧
       alookup st.rooms r = some room ∧ s = room.ownerId ∧
       st1 = { st with connected := st.connected.filter (fun x => x != s),
                       timers := aset st.timers r st.nextTimer,
                       pending := st.pending ++ [(st.nextTimer, r)],
                       nextTimer := st.nextTimer + 1,
                       peers := adel st.peers s } ∧ out = [] ∧ rep = .noReply) ∨
    (∃ s r room, e = .disconnect s ∧ s ∈ st.connected ∧ alookup st.socketRoom s = some r ∧
       alookup st.rooms r = some room ∧ s ≠ room.ownerId ∧
       st1 = { st with connected := st.connected.filter (fun x => x != s),
                       rooms := aset st.rooms r
                         { room with participants := room.participants.filter (fun id => id != s),
                                     producers := room.producers.filter (fun p => p.socketId != s) },
                       peers := adel st.peers s } ∧
       out = [.participantLeft (room.participants.filter (fun id => id != s)) s] ∧
       rep = .noReply) ∨
    (∃ s peer, e = .createTransport s ∧ s ∈ st.connected ∧ alookup st.peers s = some peer ∧
       st1 = { st with peers := aset st.peers s
                         { peer with transports := peer.transports ++ [st.nextTransport] },
                       nextTransport := st.nextTransport + 1 } ∧
       out = [] ∧ rep = .transportCreated st.nextTransport) ∨
    (∃ s tid tag peer, e = .produce s tid tag ∧ s ∈ st.connected ∧
       alookup st.peers s = some peer ∧ tid ∉ peer.transports ∧
       st1 = st ∧ out = [] ∧ rep = .errorReply "transport not found") ∨
    (∃ s tid tag peer, e = .produce s tid tag ∧ s ∈ st.connected ∧
       alookup st.peers s = some peer ∧ tid ∈ peer.transports ∧
       alookup st.socketRoom s = none ∧
       st1 = { st with peers := aset st.peers s
                         { peer with producers := peer.producers ++ [st.nextProducer] },
                       nextProducer := st.nextProducer + 1 } ∧
       out = [] ∧ rep = .producedOk st.nextProducer) ∨
    (∃ s tid tag peer r room, e = .produce s tid tag ∧ s ∈ st.connected ∧
       alookup st.peers s = some peer ∧ tid ∈ peer.transports ∧
       alookup st.socketRoom s = some r ∧ alookup st.rooms r = some room ∧
       st1 = { st with peers := aset st.peers s
                         { peer with producers := peer.producers ++ [st.nextProducer] },
                       nextProducer := st.nextProducer + 1,
                       rooms := aset st.rooms r
                         { room with producers := room.producers ++ [⟨s, st.nextProducer, tag⟩] } } ∧
       out = (room.participants.filter (fun id => id != s)).map
               (fun id => Emit.newProducer id st.nextProducer s tag) ∧
       rep = .producedOk st.nextProducer) ∨
    (∃ t q room, e = .timerFire t ∧ st.pending.find? (fun q2 => q2.1 == t) = some q ∧
       alookup st.rooms q.2 = some room ∧
       st1 = { st with pending := st.pending.filter (fun q2 => q2.1 != t),
                       rooms := adel st.rooms q.2 } ∧
       out = [.roomClosed room.participants] ∧ rep = .noReply) ∨
    (∃ t q, e = .timerFire t ∧ st.pending.find? (fun q2 => q2.1 == t) = some q ∧
       alookup st.rooms q.2 = none ∧
       st1 = { st with pending := st.pending.filter (fun q2 => q2.1 != t) } ∧
       out = [.roomClosed []] ∧ rep = .noReply) ∨
    (∃ s r, e = .codeGet s r ∧ s ∈ st.connected ∧ st1 = st ∧ out = [] ∧
       rep = .codeText ((alookup st.codeStore r).getD "")) ∨
    (∃ s r text, e = .codeSet s r text ∧ s ∈ st.connected ∧
       st1 = { st with codeStore := aset st.codeStore r text } ∧
       out = [.codeUpdate r text] ∧ rep = .noReply) := by
  cases e with
  | connect s =>
    simp only [step, onConnect] at h
    split at h
    · exact Option.noConfusion h
    · simp only [Option.some.injEq, Prod.mk.injEq] at h
      obtain ⟨rfl, rfl, rfl⟩ := h
      exact Or.inl ⟨s, rfl, by assumption, rfl, rfl, rfl⟩
  | joinRoom s r =>
    simp only [step, onJoinRoom] at h
    split at h
    · exact Option.noConfusion h
    · rename_i hconn
      rw [not_not] at hconn
      split at h
      · rename_i hroom
        simp only [Option.some.injEq, Prod.mk.injEq] at h
        obtain ⟨rfl, rfl, rfl⟩ := h
        exact Or.inr (Or.inl ⟨s, r, rfl, hconn, hroom, rfl, rfl, rfl⟩)
      · rename_i room hroom
        simp only [Option.some.injEq, Prod.mk.injEq] at h
        obtain ⟨rfl, rfl, rfl⟩ := h
        exact Or.inr (Or.inr (Or.inl ⟨s, r, room, rfl, hconn, hroom, rfl, rfl, rfl⟩))
  | approveJoin s tgt =>
    simp only [step, onApproveJoin] at h
    split at h
    · exact Option.noConfusion h
    · rename_i hconn
      rw [not_not] at hconn
      split at h
      · rename_i hsr
        simp only [Option.some.injEq, Prod.mk.injEq] at h
        obtain ⟨rfl, rfl, rfl⟩ := h
        exact Or.inr (Or.inr (Or.inr (Or.inl ⟨s, tgt, rfl, hconn, hsr, rfl, rfl, rfl⟩)))
      · rename_i r hsr
        split at h
        · exact Option.noConfusion h
        · rename_i room hroom
          simp only [Option.some.injEq, Prod.mk.injEq] at h
          obtain ⟨hst, rfl, rfl⟩ := h
          refine Or.inr (Or.inr (Or.inr (Or.inr (Or.inl
            ⟨s, tgt, r, room, rfl, hconn, hsr, hroom, ?_, rfl, rfl⟩))))
          rw [← hst]
  | denyJoin s tgt =>
    simp only [step, onDenyJoin] at h
    split at h
    · exact Option.noConfusion h
    · rename_i hconn
      rw [not_not] at hconn
      simp only [Option.some.injEq, Prod.mk.injEq] at h
      obtain ⟨rfl, rfl, rfl⟩ := h
      exact Or.inr (Or.inr (Or.inr (Or.inr (Or.inr (Or.inl ⟨s, tgt, rfl, hconn, rfl, rfl, rfl⟩)))))
  | disconnect s =>
    simp only [step, onDisconnect] at h
    split at h
    · exact Option.noConfusion h
    · rename_i hconn
      rw [not_not] at hconn
      split at h
      · rename_i hsr
        simp only [Option.some.injEq, Prod.mk.injEq] at h
        obtain ⟨rfl, rfl, rfl⟩ := h
        refine Or.inr (Or.inr (Or.inr (Or.inr (Or.inr (Or.inr (Or.inl
          ⟨s, rfl, hconn, hsr, rfl, rfl, rfl⟩))))))
      · rename_i r hsr
        split at h
        · rename_i hroom
          simp only [Option.some.injEq, Prod.mk.injEq] at h
          obtain ⟨rfl, rfl, rfl⟩ := h
          refine Or.inr (Or.inr (Or.inr (Or.inr (Or.inr (Or.inr (Or.inr (Or.inl
            ⟨s, r, rfl, hconn, hsr, hroom, rfl, rfl, rfl⟩)))))))
        · rename_i room hroom
          split at h
          · rename_i howner
            simp only [Option.some.injEq, Prod.mk.injEq] at h
            obtain ⟨rfl, rfl, rfl⟩ := h
            refine Or.inr (Or.inr (Or.inr (Or.inr (Or.inr (Or.inr (Or.inr (Or.inr (Or.inl
              ⟨s, r, room, rfl, hconn, hsr, hroom, by simpa using howner, rfl, rfl, rfl⟩))))))))
          · rename_i howner
            simp only [Option.some.injEq, Prod.mk.injEq] at h
            obtain ⟨rfl, rfl, rfl⟩ := h
            refine Or.inr (Or.inr (Or.inr (Or.inr (Or.inr (Or.inr (Or.inr (Or.inr (Or.inr (Or.inl
              ⟨s, r, room, rfl, hconn, hsr, hroom, by simpa using howner, rfl, rfl, rfl⟩)))))))))
  | createTransport s =>
    simp only [step, onCreateTransport] at h
    split at h
    · exact Option.noConfusion h
    · rename_i hconn
      rw [not_not] at hconn
      split at h
      · exact Option.noConfusion h
      · rename_i peer hpeer
        simp only [Option.some.injEq, Prod.mk.injEq] at h
        obtain ⟨rfl, rfl, rfl⟩ := h
        refine Or.inr (Or.inr (Or.inr (Or.inr (Or.inr (Or.inr (Or.inr (Or.inr (Or.inr (Or.inr
          (Or.inl ⟨s, peer, rfl, hconn, hpeer, rfl, rfl, rfl⟩))))))))))
  | produce s tid tag =>
    simp only [step, onProduce] at h
    split at h
    · exact Option.noConfusion h
    · rename_i hconn
      rw [not_not] at hconn
      split at h
      · exact Option.noConfusion h
      · rename_i peer hpeer
        split at h
        · rename_i htid
          simp only [Option.some.injEq, Prod.mk.injEq] at h
          obtain ⟨rfl, rfl, rfl⟩ := h
          refine Or.inr (Or.inr (Or.inr (Or.inr (Or.inr (Or.inr (Or.inr (Or.inr (Or.inr (Or.inr
            (Or.inr (Or.inl ⟨s, tid, tag, peer, rfl, hconn, hpeer, htid, rfl, rfl, rfl⟩)))))))))))
        · rename_i htid
          rw [not_not] at htid
          split at h
          · rename_i hsr
            simp only [Option.some.injEq, Prod.mk.injEq] at h
            obtain ⟨rfl, rfl, rfl⟩ := h
            refine Or.inr (Or.inr (Or.inr (Or.inr (Or.inr (Or.inr (Or.inr (Or.inr (Or.inr (Or.inr
              (Or.inr (Or.inr (Or.inl ⟨s, tid, tag, peer, rfl, hconn, hpeer, htid, hsr, rfl, rfl, rfl⟩))))))))))))
          · rename_i r hsr
            split at h
            · exact Option.noConfusion h
            · rename_i room hroom
              simp only [Option.some.injEq, Prod.mk.injEq] at h
              obtain ⟨rfl, rfl, rfl⟩ := h
              refine Or.inr (Or.inr (Or.inr (Or.inr (Or.inr (Or.inr (Or.inr (Or.inr (Or.inr (Or.inr
                (Or.inr (Or.inr (Or.inr (Or.inl
                  ⟨s, tid, tag, peer, r, room, rfl, hconn, hpeer, htid, hsr, by simpa using hroom, rfl, rfl, rfl⟩)))))))))))))
  | timerFire t =>
    simp only [step, onTimerFire] at h
    split at h
    · exact Option.noConfusion h
    · rename_i q hq
      split at h
      · rename_i room hroom
        simp only [Option.some.injEq, Prod.mk.injEq] at h
        obtain ⟨rfl, rfl, rfl⟩ := h
        refine Or.inr (Or.inr (Or.inr (Or.inr (Or.inr (Or.inr (Or.inr (Or.inr (Or.inr (Or.inr
          (Or.inr (Or.inr (Or.inr (Or.inr (Or.inl ⟨t, q, room, rfl, hq, hroom, rfl, rfl, rfl⟩))))))))))))))
      · rename_i hroom
        simp only [Option.some.injEq, Prod.mk.injEq] at h
        obtain ⟨rfl, rfl, rfl⟩ := h
        refine Or.inr (Or.inr (Or.inr (Or.inr (Or.inr (Or.inr (Or.inr (Or.inr (Or.inr (Or.inr
          (Or.inr (Or.inr (Or.inr (Or.inr (Or.inr (Or.inl ⟨t, q, rfl, hq, hroom, rfl, rfl, rfl⟩)))))))))))))))
  | codeGet s r =>
    simp only [step, onCodeGet] at h
    split at h
    · exact Option.noConfusion h
    · rename_i hconn
      rw [not_not] at hconn
      simp only [Option.some.injEq, Prod.mk.injEq] at h
      obtain ⟨rfl, rfl, rfl⟩ := h
      refine Or.inr (Or.inr (Or.inr (Or.inr (Or.inr (Or.inr (Or.inr (Or.inr (Or.inr (Or.inr
        (Or.inr (Or.inr (Or.inr (Or.inr (Or.inr (Or.inr (Or.inl ⟨s, r, rfl, hconn, rfl, rfl, rfl⟩))))))))))))))))
  | codeSet s r text =>
    simp only [step, onCodeSet] at h
    split at h
    · exact Option.noConfusion h
    · rename_i hconn
      rw [not_not] at hconn
      simp only [Option.some.injEq, Prod.mk.injEq] at h
      obtain ⟨rfl, rfl, rfl⟩ := h
      exact Or.inr (Or.inr (Or.inr (Or.inr (Or.inr (Or.inr (Or.inr (Or.inr (Or.inr (Or.inr
        (Or.inr (Or.inr (Or.inr (Or.inr (Or.inr (Or.inr (Or.inr ⟨s, r, text, rfl, hconn, rfl, rfl, rfl⟩))))))))))))))))

theorem ownerGoneB_iff {st : SrvState} {r : Nat} :
    ownerGoneB st r = true ↔
      ∃ room, alookup st.rooms r = some room ∧ room.ownerId ∉ st.connected := by
  unfold ownerGoneB
  cases h : alookup st.rooms r <;> simp [h]

theorem mem_clearPending {st : SrvState} {r : Nat} {q : Nat × Nat}
    (h : q ∈ clearPending st r) : q ∈ st.pending := by
  unfold clearPending at h
  split at h
  · exact List.mem_of_mem_filter h
  · exact h

theorem clearPending_not_cleared {st : SrvState} {r : Nat} {q : Nat × Nat}
    (h : q ∈ clearPending st r) {t : Nat} (ht : alookup st.timers r = some t) :
    q.1 ≠ t := by
  unfold clearPending at h
  rw [ht] at h
  have := (List.mem_filter.mp h).2
  simpa using this

theorem clearPending_ne_room {st : SrvState} {r : Nat} {q : Nat × Nat}
    (hw : Wf st) (h : q ∈ clearPending st r) : q.2 ≠ r := by
  intro hqr
  have hq := mem_clearPending h
  have h3 := (hw.2.2.1 q hq).1
  rw [hqr] at h3
  exact clearPending_not_cleared h h3 rfl

theorem step_codeStore {st st1 : SrvState} {e : Event} {out : List Emit} {rep : Reply}
    (h : step st e = some (st1, out, rep)) (r : Nat) (hne : isCodeSetFor r e = false) :
    alookup st1.codeStore r = alookup st.codeStore r := by
  rcases stepCases h with
      ⟨s, rfl, -, rfl, rfl, rfl⟩ |
      ⟨s, r1, rfl, -, -, rfl, rfl, rfl⟩ |
      ⟨s, r1, room, rfl, -, -, rfl, rfl, rfl⟩ |
      ⟨s, tgt, rfl, -, -, rfl, rfl, rfl⟩ |
      ⟨s, tgt, r1, room, rfl, -, -, -, rfl, rfl, rfl⟩ |
      ⟨s, tgt, rfl, -, rfl, rfl, rfl⟩ |
      ⟨s, rfl, -, -, rfl, rfl, rfl⟩ |
      ⟨s, r1, rfl, -, -, -, rfl, rfl, rfl⟩ |
      ⟨s, r1, room, rfl, -, -, -, -, rfl, rfl, rfl⟩ |
      ⟨s, r1, room, rfl, -, -, -, -, rfl, rfl, rfl⟩ |
      ⟨s, peer, rfl, -, -, rfl, rfl, rfl⟩ |
      ⟨s, tid, tag, peer, rfl, -, -, -, rfl, rfl, rfl⟩ |
      ⟨s, tid, tag, peer, rfl, -, -, -, -, rfl, rfl, rfl⟩ |
      ⟨s, tid, tag, peer, r1, room, rfl, -, -, -, -, -, rfl, rfl, rfl⟩ |
      ⟨t, q, room, rfl, -, -, rfl, rfl, rfl⟩ |
      ⟨t, q, rfl, -, -, rfl, rfl, rfl⟩ |
      ⟨s, r1, rfl, -, rfl, rfl, rfl⟩ |
      ⟨s, r1, text, rfl, -, rfl, rfl, rfl⟩
  · rfl
  · rfl
  · rfl
  · rfl
  · by_cases htc : tgt ∈ st.connected <;> simp [htc]
  · rfl
  · rfl
  · rfl
  · rfl
  · rfl
  · rfl
  · rfl
  · rfl
  · rfl
  · rfl
  · rfl
  · rfl
  · simp only [isCodeSetFor, beq_eq_false_iff_ne, ne_eq] at hne
    simp [alookup_aset, hne, Ne.symm hne]

theorem deadTimer_step {st st1 : SrvState} {e : Event} {out : List Emit} {rep : Reply}
    (h : step st e = some (st1, out, rep)) {t : Nat} (hd : DeadTimer t st) :
    DeadTimer t st1 := by
  obtain ⟨hlt, hnp⟩ := hd
  rcases stepCases h with
      ⟨s, rfl, -, rfl, rfl, rfl⟩ |
      ⟨s, r1, rfl, -, -, rfl, rfl, rfl⟩ |
      ⟨s, r1, room, rfl, -, -, rfl, rfl, rfl⟩ |
      ⟨s, tgt, rfl, -, -, rfl, rfl, rfl⟩ |
      ⟨s, tgt, r1, room, rfl, -, -, -, rfl, rfl, rfl⟩ |
      ⟨s, tgt, rfl, -, rfl, rfl, rfl⟩ |
      ⟨s, rfl, -, -, rfl, rfl, rfl⟩ |
      ⟨s, r1, rfl, -, -, -, rfl, rfl, rfl⟩ |
      ⟨s, r1, room, rfl, -, -, -, -, rfl, rfl, rfl⟩ |
      ⟨s, r1, room, rfl, -, -, -, -, rfl, rfl, rfl⟩ |
      ⟨s, peer, rfl, -, -, rfl, rfl, rfl⟩ |
      ⟨s, tid, tag, peer, rfl, -, -, -, rfl, rfl, rfl⟩ |
      ⟨s, tid, tag, peer, rfl, -, -, -, -, rfl, rfl, rfl⟩ |
      ⟨s, tid, tag, peer, r1, room, rfl, -, -, -, -, -, rfl, rfl, rfl⟩ |
      ⟨t1, q, room, rfl, -, -, rfl, rfl, rfl⟩ |
      ⟨t1, q, rfl, -, -, rfl, rfl, rfl⟩ |
      ⟨s, r1, rfl, -, rfl, rfl, rfl⟩ |
      ⟨s, r1, text, rfl, -, rfl, rfl, rfl⟩
  · exact ⟨hlt, hnp⟩
  · exact ⟨hlt, fun q hq => hnp q (mem_clearPending hq)⟩
  · exact ⟨hlt, fun q hq => hnp q (mem_clearPending hq)⟩
  · exact ⟨hlt, hnp⟩
  · by_cases htc : tgt ∈ st.connected <;> simp only [htc, if_true, if_false] <;>
      exact ⟨hlt, hnp⟩
  · exact ⟨hlt, hnp⟩
  · exact ⟨hlt, hnp⟩
  · exact ⟨hlt, hnp⟩
  · refine ⟨Nat.lt_succ_of_lt hlt, fun q hq => ?_⟩
    rcases List.mem_append.mp hq with hq | hq
    · exact hnp q hq
    · simp only [List.mem_singleton] at hq
      subst hq
      exact fun hc => absurd (hc ▸ hlt) (Nat.lt_irrefl _)
  · exact ⟨hlt, hnp⟩
  · exact ⟨hlt, hnp⟩
  · exact ⟨hlt, hnp⟩
  · exact ⟨hlt, hnp⟩
  · exact ⟨hlt, hnp⟩
  · exact ⟨hlt, fun q hq => hnp q (List.mem_of_mem_filter hq)⟩
  · exact ⟨hlt, fun q hq => hnp q (List.mem_of_mem_filter hq)⟩
  · exact ⟨hlt, hnp⟩
  · exact ⟨hlt, hnp⟩

theorem deadTimer_no_fire {st : SrvState} {t : Nat} (hd : DeadTimer t st) :
    step st (.timerFire t) = none := by
  have hfind : st.pending.find? (fun q2 => q2.1 == t) = none := by
    rw [List.find?_eq_none]
    intro q hq
    simp [hd.2 q hq]
  simp [step, onTimerFire, hfind]

theorem deadTimer_reaches {st st' : SrvState} (hr : Reaches st st') {t : Nat}
    (hd : DeadTimer t st) : DeadTimer t st' := by
  induction hr with
  | refl => exact hd
  | tail e out rep _ hstep ih => exact deadTimer_step hstep ih

theorem step_disjoint {st st1 : SrvState} {e : Event} {out : List Emit} {rep : Reply}
    (h : step st e = some (st1, out, rep)) (hd : DisjAll st)
    (hg : joinGuardB st e = true) : DisjAll st1 := by
  rcases stepCases h with
      ⟨s, rfl, -, rfl, rfl, rfl⟩ |
      ⟨s, r1, rfl, -, hroom, rfl, rfl, rfl⟩ |
      ⟨s, r1, room, rfl, -, hroom, rfl, rfl, rfl⟩ |
      ⟨s, tgt, rfl, -, -, rfl, rfl, rfl⟩ |
      ⟨s, tgt, r1, room, rfl, -, -, hroom, rfl, rfl, rfl⟩ |
      ⟨s, tgt, rfl, -, rfl, rfl, rfl⟩ |
      ⟨s, rfl, -, -, rfl, rfl, rfl⟩ |
      ⟨s, r1, rfl, -, -, -, rfl, rfl, rfl⟩ |
      ⟨s, r1, room, rfl, -, -, -, -, rfl, rfl, rfl⟩ |
      ⟨s, r1, room, rfl, -, -, hroom, -, rfl, rfl, rfl⟩ |
      ⟨s, peer, rfl, -, -, rfl, rfl, rfl⟩ |
      ⟨s, tid, tag, peer, rfl, -, -, -, rfl, rfl, rfl⟩ |
      ⟨s, tid, tag, peer, rfl, -, -, -, -, rfl, rfl, rfl⟩ |
      ⟨s, tid, tag, peer, r1, room, rfl, -, -, -, -, hroom, rfl, rfl, rfl⟩ |
      ⟨t, q, room, rfl, -, -, rfl, rfl, rfl⟩ |
      ⟨t, q, rfl, -, -, rfl, rfl, rfl⟩ |
      ⟨s, r1, rfl, -, rfl, rfl, rfl⟩ |
      ⟨s, r1, text, rfl, -, rfl, rfl, rfl⟩
  · exact hd
  · intro p hp
    rcases mem_aset hp with rfl | hp'
    · intro x hx
      simp at hx
    · exact hd p hp'
  · simp only [joinGuardB, hroom, Bool.not_eq_true'] at hg
    intro p hp
    rcases mem_aset hp with rfl | hp'
    · intro x hx hpart
      simp only [List.mem_append, List.mem_singleton] at hx
      rcases hx with hx | rfl
      · exact hd _ (alookup_mem hroom) x hx hpart
      · exact absurd hpart (by simpa using hg)
    · exact hd p hp'
  · exact hd
  · split
    all_goals
      intro p hp
      rcases mem_aset hp with rfl | hp'
      case inr => exact hd p hp'
      case inl =>
        intro x hx hpart
        simp only [List.mem_filter, bne_iff_ne, ne_eq] at hx
        simp only [List.mem_append, List.mem_singleton] at hpart
        rcases hpart with hpart | rfl
        · exact hd _ (alookup_mem hroom) x hx.1 hpart
        · exact hx.2 rfl
  · exact hd
  · exact hd
  · exact hd
  · exact hd
  · intro p hp
    rcases mem_aset hp with rfl | hp'
    · intro x hx hpart
      exact hd _ (alookup_mem hroom) x hx (List.mem_of_mem_filter hpart)
    · exact hd p hp'
  · exact hd
  · exact hd
  · exact hd
  · intro p hp
    rcases mem_aset hp with rfl | hp'
    · intro x hx hpart
      exact hd _ (alookup_mem hroom) x hx hpart
    · exact hd p hp'
  · intro p hp
    exact hd p (mem_adel hp)
  · exact hd
  · exact hd
  · exact hd

theorem ownerGoneB_update {st st' : SrvState} {r1 q2 : Nat} {room room' : Room}
    (hroom : alookup st.rooms r1 = some room)
    (hrooms : st'.rooms = aset st.rooms r1 room')
    (howner : room'.ownerId = room.ownerId)
    (hconn : ∀ x, x ∈ st'.connected → x ∈ st.connected)
    (hg : ownerGoneB st q2 = true) : ownerGoneB st' q2 = true := by
  rw [ownerGoneB_iff] at hg ⊢
  obtain ⟨room2, hrm, hout⟩ := hg
  by_cases hqr : q2 = r1
  · refine ⟨room', by rw [hrooms, alookup_aset, if_pos hqr], ?_⟩
    have hr2 : room2 = room := by
      rw [hqr, hroom] at hrm
      exact (Option.some.inj hrm).symm
    rw [howner, ← hr2]
    exact fun hc => hout (hconn _ hc)
  · exact ⟨room2, by rw [hrooms, alookup_aset, if_neg hqr]; exact hrm,
      fun hc => hout (hconn _ hc)⟩

theorem ownerGoneB_mono {st st' : SrvState} {q2 : Nat}
    (hrooms : st'.rooms = st.rooms)
    (hconn : ∀ x, x ∈ st'.connected → x ∈ st.connected)
    (hg : ownerGoneB st q2 = true) : ownerGoneB st' q2 = true := by
  rw [ownerGoneB_iff] at hg ⊢
  obtain ⟨room2, hrm, hout⟩ := hg
  exact ⟨room2, by rw [hrooms]; exact hrm, fun hc => hout (hconn _ hc)⟩

theorem wf_step {st st1 : SrvState} {e : Event} {out : List Emit} {rep : Reply}
    (h : step st e = some (st1, out, rep)) (hw : Wf st) : Wf st1 := by
  obtain ⟨w1, w2, w3, w4⟩ := hw
  rcases stepCases h with
      ⟨s, rfl, hused, rfl, rfl, rfl⟩ |
      ⟨s, r1, rfl, hconn, hroomn, rfl, rfl, rfl⟩ |
      ⟨s, r1, room, rfl, hconn, hroom, rfl, rfl, rfl⟩ |
      ⟨s, tgt, rfl, -, -, rfl, rfl, rfl⟩ |
      ⟨s, tgt, r1, room, rfl, hconn, hsr, hroom, rfl, rfl, rfl⟩ |
      ⟨s, tgt, rfl, -, rfl, rfl, rfl⟩ |
      ⟨s, rfl, hconn, hsrn, rfl, rfl, rfl⟩ |
      ⟨s, r1, rfl, hconn, hsr, hroomn, rfl, rfl, rfl⟩ |
      ⟨s, r1, room, rfl, hconn, hsr, hroom, howner, rfl, rfl, rfl⟩ |
      ⟨s, r1, room, rfl, hconn, hsr, hroom, howner, rfl, rfl, rfl⟩ |
      ⟨s, peer, rfl, -, -, rfl, rfl, rfl⟩ |
      ⟨s, tid, tag, peer, rfl, -, -, -, rfl, rfl, rfl⟩ |
      ⟨s, tid, tag, peer, rfl, -, -, -, -, rfl, rfl, rfl⟩ |
      ⟨s, tid, tag, peer, r1, room, rfl, hconn, hpeer, htid, hsr, hroom, rfl, rfl, rfl⟩ |
      ⟨t, q, room, rfl, hfind, hroom, rfl, rfl, rfl⟩ |
      ⟨t, q, rfl, hfind, hroomn, rfl, rfl, rfl⟩ |
      ⟨s, r1, rfl, -, rfl, rfl, rfl⟩ |
      ⟨s, r1, text, rfl, -, rfl, rfl, rfl⟩
  · refine ⟨?_, ?_, ?_, w4⟩
    · intro x hx
      rcases List.mem_append.mp hx with hx | hx
      · exact List.mem_append_left _ (w1 x hx)
      · exact List.mem_append_right _ hx
    · intro p hp
      exact List.mem_append_left _ (w2 p hp)
    · intro q hq
      obtain ⟨h3a, h3b, h3c⟩ := w3 q hq
      refine ⟨h3a, h3b, ?_⟩
      rw [ownerGoneB_iff] at h3c ⊢
      obtain ⟨room, hrm, hout⟩ := h3c
      refine ⟨room, hrm, ?_⟩
      intro hmem
      rcases List.mem_append.mp hmem with hm | hm
      · exact hout hm
      · simp only [List.mem_singleton] at hm
        exact hused (hm ▸ w2 _ (alookup_mem hrm))
  · refine ⟨w1, ?_, ?_, ?_⟩
    · intro p hp
      rcases mem_aset hp with rfl | hp'
      · exact w1 s hconn
      · exact w2 p hp'
    · intro q hq
      have hqp := mem_clearPending hq
      obtain ⟨h3a, h3b, h3c⟩ := w3 q hqp
      have hqr : q.2 ≠ r1 := by
        intro hc
        obtain ⟨room, hrm, -⟩ := ownerGoneB_iff.mp h3c
        rw [hc, hroomn] at hrm
        exact Option.noConfusion hrm
      refine ⟨h3a, h3b, ?_⟩
      rw [ownerGoneB_iff] at h3c ⊢
      obtain ⟨room, hrm, hout⟩ := h3c
      exact ⟨room, by rw [alookup_aset, if_neg hqr]; exact hrm, hout⟩
    · intro q hq q2 hq2
      exact w4 q (mem_clearPending hq) q2 (mem_clearPending hq2)
  · refine ⟨w1, ?_, ?_, ?_⟩
    · intro p hp
      rcases mem_aset hp with rfl | hp'
      · exact w2 (r1, room) (alookup_mem hroom)
      · exact w2 p hp'
    · intro q hq
      have hqp := mem_clearPending hq
      obtain ⟨h3a, h3b, h3c⟩ := w3 q hqp
      exact ⟨h3a, h3b, ownerGoneB_update hroom rfl rfl (fun x hx => hx) h3c⟩
    · intro q hq q2 hq2
      exact w4 q (mem_clearPending hq) q2 (mem_clearPending hq2)
  · exact ⟨w1, w2, w3, w4⟩
  · split
    all_goals refine ⟨w1, ?_, ?_, w4⟩
    · intro p hp
      rcases mem_aset hp with rfl | hp'
      · exact w2 (r1, room) (alookup_mem hroom)
      · exact w2 p hp'
    · intro q hq
      obtain ⟨h3a, h3b, h3c⟩ := w3 q hq
      exact ⟨h3a, h3b, ownerGoneB_update hroom rfl rfl (fun x hx => hx) h3c⟩
    · intro p hp
      rcases mem_aset hp with rfl | hp'
      · exact w2 (r1, room) (alookup_mem hroom)
      · exact w2 p hp'
    · intro q hq
      obtain ⟨h3a, h3b, h3c⟩ := w3 q hq
      exact ⟨h3a, h3b, ownerGoneB_update hroom rfl rfl (fun x hx => hx) h3c⟩
  · exact ⟨w1, w2, w3, w4⟩
  · refine ⟨?_, w2, ?_, w4⟩
    · intro x hx
      exact w1 x (List.mem_of_mem_filter hx)
    · intro q hq
      obtain ⟨h3a, h3b, h3c⟩ := w3 q hq
      refine ⟨h3a, h3b, ownerGoneB_mono ?_ (fun x hx => List.mem_of_mem_filter hx) h3c⟩
      rfl
  · refine ⟨?_, w2, ?_, w4⟩
    · intro x hx
      exact w1 x (List.mem_of_mem_filter hx)
    · intro q hq
      obtain ⟨h3a, h3b, h3c⟩ := w3 q hq
      refine ⟨h3a, h3b, ownerGoneB_mono ?_ (fun x hx => List.mem_of_mem_filter hx) h3c⟩
      rfl
  · refine ⟨?_, w2, ?_, ?_⟩
    · intro x hx
      exact w1 x (List.mem_of_mem_filter hx)
    · intro q hq
      rcases List.mem_append.mp hq with hq | hq
      · obtain ⟨h3a, h3b, h3c⟩ := w3 q hq
        have hqr : q.2 ≠ r1 := by
          intro hc
          obtain ⟨room2, hrm, hout⟩ := ownerGoneB_iff.mp h3c
          rw [hc, hroom] at hrm
          have hr2 : room2 = room := (Option.some.inj hrm).symm
          exact hout (hr2 ▸ howner ▸ hconn)
        refine ⟨by rw [alookup_aset, if_neg hqr]; exact h3a, Nat.lt_succ_of_lt h3b, ?_⟩
        obtain ⟨room2, hrm, hout⟩ := ownerGoneB_iff.mp h3c
        rw [ownerGoneB_iff]
        refine ⟨room2, hrm, fun hc => hout (List.mem_of_mem_filter hc)⟩
      · simp only [List.mem_singleton] at hq
        subst hq
        refine ⟨by rw [alookup_aset, if_pos rfl], Nat.lt_succ_self _, ?_⟩
        rw [ownerGoneB_iff]
        refine ⟨room, hroom, ?_⟩
        intro hmem
        have hne := (List.mem_filter.mp hmem).2
        rw [← howner] at hne
        simp at hne
    · intro q hq q2 hq2 heq
      rcases List.mem_append.mp hq with hq | hq <;>
        rcases List.mem_append.mp hq2 with hq2 | hq2
      · exact w4 q hq q2 hq2 heq
      · simp only [List.mem_singleton] at hq2
        subst hq2
        exact absurd heq (Nat.ne_of_lt (w3 q hq).2.1)
      · simp only [List.mem_singleton] at hq
        subst hq
        exact absurd heq.symm (Nat.ne_of_lt (w3 q2 hq2).2.1)
      · simp only [List.mem_singleton] at hq hq2
        rw [hq, hq2]
  · refine ⟨?_, ?_, ?_, w4⟩
    · intro x hx
      exact w1 x (List.mem_of_mem_filter hx)
    · intro p hp
      rcases mem_aset hp with rfl | hp'
      · exact w2 (r1, room) (alookup_mem hroom)
      · exact w2 p hp'
    · intro q hq
      obtain ⟨h3a, h3b, h3c⟩ := w3 q hq
      exact ⟨h3a, h3b,
        ownerGoneB_update hroom rfl rfl (fun x hx => List.mem_of_mem_filter hx) h3c⟩
  · exact ⟨w1, w2, w3, w4⟩
  · exact ⟨w1, w2, w3, w4⟩
  · exact ⟨w1, w2, w3, w4⟩
  · refine ⟨w1, ?_, ?_, w4⟩
    · intro p hp
      rcases mem_aset hp with rfl | hp'
      · exact w2 (r1, room) (alookup_mem hroom)
      · exact w2 p hp'
    · intro q hq
      obtain ⟨h3a, h3b, h3c⟩ := w3 q hq
      exact ⟨h3a, h3b, ownerGoneB_update hroom rfl rfl (fun x hx => hx) h3c⟩
  · have hqmem : q ∈ st.pending := List.mem_of_find?_eq_some hfind
    have hqt : q.1 = t := by
      have := List.find?_some hfind
      simpa using this
    refine ⟨w1, ?_, ?_, ?_⟩
    · intro p hp
      exact w2 p (mem_adel hp)
    · intro q' hq'
      have hq'p : q' ∈ st.pending := List.mem_of_mem_filter hq'
      have hq't : q'.1 ≠ t := by
        have := (List.mem_filter.mp hq').2
        simpa using this
      obtain ⟨h3a, h3b, h3c⟩ := w3 q' hq'p
      have hner : q'.2 ≠ q.2 := by
        intro hc
        have h0 := (w3 q hqmem).1
        rw [hc] at h3a
        rw [h3a] at h0
        exact hq't ((Option.some.inj h0) ▸ hqt)
      refine ⟨h3a, h3b, ?_⟩
      rw [ownerGoneB_iff] at h3c ⊢
      obtain ⟨room2, hrm, hout⟩ := h3c
      exact ⟨room2, by rw [alookup_adel, if_neg hner]; exact hrm, hout⟩
    · intro q' hq' q2 hq2
      exact w4 q' (List.mem_of_mem_filter hq') q2 (List.mem_of_mem_filter hq2)
  · refine ⟨w1, w2, ?_, ?_⟩
    · intro q' hq'
      obtain ⟨h3a, h3b, h3c⟩ := w3 q' (List.mem_of_mem_filter hq')
      exact ⟨h3a, h3b, h3c⟩
    · intro q' hq' q2 hq2
      exact w4 q' (List.mem_of_mem_filter hq') q2 (List.mem_of_mem_filter hq2)
  · exact ⟨w1, w2, w3, w4⟩
  · exact ⟨w1, w2, w3, w4⟩

theorem wf_reaches {st st' : SrvState} (hr : Reaches st st') (hw : Wf st) : Wf st' := by
  induction hr with
  | refl => exact hw
  | tail e out rep _ hstep ih => exact wf_step hstep ih

theorem roomAlive_step {st st1 : SrvState} {e : Event} {out : List Emit} {rep : Reply}
    (h : step st e = some (st1, out, rep)) {r o : Nat} (ha : RoomAlive r o st) :
    RoomAlive r o st1 := by
  obtain ⟨⟨roomA, hla, hoa⟩, hnp, hoc, hou⟩ := ha
  rcases stepCases h with
      ⟨s, rfl, hused, rfl, rfl, rfl⟩ |
      ⟨s, r1, rfl, hconn, hroomn, rfl, rfl, rfl⟩ |
      ⟨s, r1, room, rfl, hconn, hroom, rfl, rfl, rfl⟩ |
      ⟨s, tgt, rfl, -, -, rfl, rfl, rfl⟩ |
      ⟨s, tgt, r1, room, rfl, hconn, hsr, hroom, rfl, rfl, rfl⟩ |
      ⟨s, tgt, rfl, -, rfl, rfl, rfl⟩ |
      ⟨s, rfl, hconn, hsrn, rfl, rfl, rfl⟩ |
      ⟨s, r1, rfl, hconn, hsr, hroomn, rfl, rfl, rfl⟩ |
      ⟨s, r1, room, rfl, hconn, hsr, hroom, howner, rfl, rfl, rfl⟩ |
      ⟨s, r1, room, rfl, hconn, hsr, hroom, howner, rfl, rfl, rfl⟩ |
      ⟨s, peer, rfl, -, -, rfl, rfl, rfl⟩ |
      ⟨s, tid, tag, peer, rfl, -, -, -, rfl, rfl, rfl⟩ |
      ⟨s, tid, tag, peer, rfl, -, -, -, -, rfl, rfl, rfl⟩ |
      ⟨s, tid, tag, peer, r1, room, rfl, hconn, hpeer, htid, hsr, hroom, rfl, rfl, rfl⟩ |
      ⟨t, q, room, rfl, hfind, hroom, rfl, rfl, rfl⟩ |
      ⟨t, q, rfl, hfind, hroomn, rfl, rfl, rfl⟩ |
      ⟨s, r1, rfl, -, rfl, rfl, rfl⟩ |
      ⟨s, r1, text, rfl, -, rfl, rfl, rfl⟩
  · refine ⟨⟨roomA, hla, hoa⟩, hnp, ?_, List.mem_append_left _ hou⟩
    intro hmem
    rcases List.mem_append.mp hmem with hm | hm
    · exact hoc hm
    · simp only [List.mem_singleton] at hm
      exact hused (hm ▸ hou)
  · have hne : r ≠ r1 := by
      intro hc
      rw [hc, hroomn] at hla
      exact Option.noConfusion hla
    exact ⟨⟨roomA, by rw [alookup_aset, if_neg hne]; exact hla, hoa⟩,
      fun q hq => hnp q (mem_clearPending hq), hoc, hou⟩
  · by_cases hqr : r = r1
    · refine ⟨⟨{ room with waiting := room.waiting ++ [s] },
        by rw [alookup_aset, if_pos hqr], ?_⟩,
        fun q hq => hnp q (mem_clearPending hq), hoc, hou⟩
      rw [hqr, hroom] at hla
      exact (Option.some.inj hla) ▸ hoa
    · exact ⟨⟨roomA, by rw [alookup_aset, if_neg hqr]; exact hla, hoa⟩,
        fun q hq => hnp q (mem_clearPending hq), hoc, hou⟩
  · exact ⟨⟨roomA, hla, hoa⟩, hnp, hoc, hou⟩
  · split
    all_goals
      by_cases hqr : r = r1
      · refine ⟨⟨_, by rw [alookup_aset, if_pos hqr], ?_⟩, hnp, hoc, hou⟩
        rw [hqr, hroom] at hla
        rw [Option.some.inj hla]
        exact hoa
      · exact ⟨⟨roomA, by rw [alookup_aset, if_neg hqr]; exact hla, hoa⟩, hnp, hoc, hou⟩
  · exact ⟨⟨roomA, hla, hoa⟩, hnp, hoc, hou⟩
  · exact ⟨⟨roomA, hla, hoa⟩, hnp, fun hc => hoc (List.mem_of_mem_filter hc), hou⟩
  · exact ⟨⟨roomA, hla, hoa⟩, hnp, fun hc => hoc (List.mem_of_mem_filter hc), hou⟩
  · have hne : r1 ≠ r := by
      intro hc
      rw [hc, hla] at hroom
      have hr2 : roomA = room := Option.some.inj hroom
      apply hoc
      rw [← hoa, hr2, ← howner]
      exact hconn
    refine ⟨⟨roomA, hla, hoa⟩, ?_, fun hc => hoc (List.mem_of_mem_filter hc), hou⟩
    intro q hq
    rcases List.mem_append.mp hq with hq | hq
    · exact hnp q hq
    · simp only [List.mem_singleton] at hq
      rw [hq]
      exact hne
  · by_cases hqr : r = r1
    · refine ⟨⟨_, by rw [alookup_aset, if_pos hqr], ?_⟩, hnp,
        fun hc => hoc (List.mem_of_mem_filter hc), hou⟩
      rw [hqr, hroom] at hla
      rw [Option.some.inj hla]
      exact hoa
    · exact ⟨⟨roomA, by rw [alookup_aset, if_neg hqr]; exact hla, hoa⟩, hnp,
        fun hc => hoc (List.mem_of_mem_filter hc), hou⟩
  · exact ⟨⟨roomA, hla, hoa⟩, hnp, hoc, hou⟩
  · exact ⟨⟨roomA, hla, hoa⟩, hnp, hoc, hou⟩
  · exact ⟨⟨roomA, hla, hoa⟩, hnp, hoc, hou⟩
  · by_cases hqr : r = r1
    · refine ⟨⟨{ room with producers := room.producers ++ [⟨s, st.nextProducer, tag⟩] },
        by rw [alookup_aset, if_pos hqr], ?_⟩, hnp, hoc, hou⟩
      rw [hqr, hroom] at hla
      exact (Option.some.inj hla) ▸ hoa
    · exact ⟨⟨roomA, by rw [alookup_aset, if_neg hqr]; exact hla, hoa⟩, hnp, hoc, hou⟩
  · have hqmem : q ∈ st.pending := List.mem_of_find?_eq_some hfind
    have hner : r ≠ q.2 := fun hc => (hnp q hqmem) hc.symm
    exact ⟨⟨roomA, by rw [alookup_adel, if_neg hner]; exact hla, hoa⟩,
      fun q' hq' => hnp q' (List.mem_of_mem_filter hq'), hoc, hou⟩
  · exact ⟨⟨roomA, hla, hoa⟩, fun q' hq' => hnp q' (List.mem_of_mem_filter hq'), hoc, hou⟩
  · exact ⟨⟨roomA, hla, hoa⟩, hnp, hoc, hou⟩
  · exact ⟨⟨roomA, hla, hoa⟩, hnp, hoc, hou⟩

theorem roomAlive_reaches {st st' : SrvState} (hr : Reaches st st') {r o : Nat}
    (ha : RoomAlive r o st) : RoomAlive r o st' := by
  induction hr with
  | refl => exact ha
  | tail e out rep _ hstep ih => exact roomAlive_step hstep ih

/-! Claim theorems. -/

/-- C1 (amended): the `approve-join` handler of `server.js` performs no
ownership check.  It is a no-op exactly when the requesting connection has
no room association (`socket.roomId` unset); any connected requester whose
`roomId` names an existing room — owner or not — removes the target from
that room's waiting list, appends it to the participants list, and emits
`join-approved` to the target.  (The claim's "no-op unless the requester is
the owner" is refuted by `approve_join_nonowner_mutates`.) -/
theorem approve_join_room_assoc_gate (st : SrvState) (a tgt : Nat)
    (hconn : a ∈ st.connected) :
    (alookup st.socketRoom a = none →
        step st (.approveJoin a tgt) = some (st, [], .noReply)) ∧
    (∀ r room, alookup st.socketRoom a = some r → alookup st.rooms r = some room →
        (step st (.approveJoin a tgt)).isSome = true ∧
        ∀ st2 out2 rep2, step st (.approveJoin a tgt) = some (st2, out2, rep2) →
          alookup st2.rooms r = some ({ room with
              waiting := room.waiting.filter (fun id => id != tgt),
              participants := room.participants ++ [tgt] }) ∧
          out2 = [.joinApproved tgt ((room.producers.filter (fun p => p.socketId != tgt)).map
              (fun p => (p.producerId, p.socketId, p.mediaTag)))]) := by
  refine ⟨?_, ?_⟩
  · intro hsr
    simp [step, onApproveJoin, hconn, hsr]
  · intro r room hsr hroom
    refine ⟨by simp [step, onApproveJoin, hconn, hsr, hroom], ?_⟩
    intro st2 out2 rep2 h
    simp only [step, onApproveJoin] at h
    rw [if_neg (not_not_intro hconn)] at h
    simp only [hsr, hroom] at h
    simp only [Option.some.injEq, Prod.mk.injEq] at h
    obtain ⟨hst, rfl, rfl⟩ := h
    refine ⟨?_, rfl⟩
    by_cases htc : tgt ∈ st.connected
    · rw [← hst]
      simp only [htc, if_true]
      rw [alookup_aset, if_pos rfl]
    · rw [← hst]
      simp only [htc, if_false]
      rw [alookup_aset, if_pos rfl]

/-- C1 witness: at the concrete state `wState`, the waiting connection 1
(no room association) gets a genuine no-op from approve-join, while the
room-associated connection 0 gets an effective approve-join. -/
theorem approve_join_room_assoc_gate_witness :
    step wState (.approveJoin 1 0) = some (wState, [], .noReply) ∧
    (step wState (.approveJoin 0 1)).isSome = true :=
  ⟨(approve_join_room_assoc_gate wState 1 0 (by decide)).1 (by decide),
   ((approve_join_room_assoc_gate wState 0 1 (by decide)).2 7 ⟨0, [0], [1], []⟩
      (by decide) (by decide)).1⟩

/-- C1 counterexample: after the trace below, connection 2 is a participant
but not the owner of room 7 (the owner is 0), and connection 1 is waiting;
yet `approve-join` issued by 2 for target 1 removes 1 from the waiting
list, appends it to the participants, and emits `join-approved` to 1 — the
operation is not a no-op for a non-owner. -/
theorem approve_join_nonowner_mutates :
    (runTrace initState [.connect 0, .joinRoom 0 7, .connect 1, .joinRoom 1 7,
        .connect 2, .joinRoom 2 7, .approveJoin 0 2]).map
        (fun p => (alookup p.1.rooms 7).map (fun rm => (rm.ownerId, rm.waiting, rm.participants)))
      = some (some (0, [1], [0, 2])) ∧
    (runTrace initState [.connect 0, .joinRoom 0 7, .connect 1, .joinRoom 1 7,
        .connect 2, .joinRoom 2 7, .approveJoin 0 2, .approveJoin 2 1]).map
        (fun p => ((alookup p.1.rooms 7).map (fun rm => (rm.waiting, rm.participants)),
                   decide (Emit.joinApproved 1 [] ∈ p.2.1)))
      = some (some ([], [0, 2, 1]), true) := by decide

/-- C4 (amended): a `produce` with a known transport from a connected peer
whose `socket.roomId` is unset succeeds: a fresh producer handle is pushed
on the peer's ledger and its id returned through the callback — no error of
any kind (in particular no NotInRoom) is returned — while the room registry
is untouched (no ProducerRecord appended anywhere) and nothing is
emitted. -/
theorem produce_without_room_succeeds (st : SrvState) (s tid : Nat) (tag : String)
    (peer : Peer) (hconn : s ∈ st.connected) (hpeer : alookup st.peers s = some peer)
    (htid : tid ∈ peer.transports) (hsr : alookup st.socketRoom s = none) :
    step st (.produce s tid tag) = some
      ({ st with peers := aset st.peers s
                   ({ peer with producers := peer.producers ++ [st.nextProducer] }),
                 nextProducer := st.nextProducer + 1 },
       [], .producedOk st.nextProducer) := by
  simp [step, onProduce, hconn, hpeer, htid, hsr]

/-- C4 witness: connection 1 of `wState` holds transport 1 and no room;
its produce succeeds with producer id 0, leaves the room registry of
`wState` unchanged, and emits nothing. -/
theorem produce_without_room_succeeds_witness :
    step wState (.produce 1 1 "cam") = some
      ({ wState with peers := aset wState.peers 1 ⟨[1], [0], []⟩,
                     nextProducer := 1 },
       [], .producedOk 0) :=
  produce_without_room_succeeds wState 1 1 "cam" ⟨[1], [], []⟩
    (by decide) (by decide) (by decide) (by decide)

/-- C4 counterexample: a peer that joined no room produces after creating a
transport; the trace succeeds end to end, the final reply is the success
payload `producedOk 0` — not an error, let alone NotInRoom — and the room
registry stays empty. -/
theorem produce_without_room_no_error :
    (runTrace initState [.connect 0, .createTransport 0, .produce 0 0 "cam"]).map
        (fun p => (p.1.rooms, p.2.2))
      = some ([], [.noReply, .transportCreated 0, .producedOk 0]) := by decide

/-- C6 (amended): `join-room` for a known room pushes the requester on the
waiting list unconditionally — `server.js` has no duplicate check — so a
repeated request from a connection already waiting yields a waiting list
counting that connection at least twice. -/
theorem join_known_room_appends_waiting (st : SrvState) (s r : Nat) (room : Room)
    (hconn : s ∈ st.connected) (hroom : alookup st.rooms r = some room) :
    step st (.joinRoom s r) = some
      ({ st with rooms := aset st.rooms r ({ room with waiting := room.waiting ++ [s] }),
                 pending := clearPending st r },
       [.joinRequest room.ownerId s], .joinedPending) ∧
    (s ∈ room.waiting → 2 ≤ (room.waiting ++ [s]).count s) := by
  refine ⟨by simp [step, onJoinRoom, hconn, hroom], ?_⟩
  intro hmem
  rw [List.count_append]
  have h1 : 0 < room.waiting.count s := List.count_pos_iff.mpr hmem
  have h2 : List.count s [s] = 1 := by simp
  omega

/-- C6 witness: connection 1 of `wState` is already waiting for room 7; a
second `join-room` from it appends a duplicate entry, giving count 2. -/
theorem join_known_room_appends_waiting_witness :
    step wState (.joinRoom 1 7) = some
      ({ wState with rooms := aset wState.rooms 7 ⟨0, [0], [1, 1], []⟩,
                     pending := clearPending wState 7 },
       [.joinRequest 0 1], .joinedPending) ∧
    2 ≤ ([1] ++ [1]).count 1 :=
  ⟨(join_known_room_appends_waiting wState 1 7 ⟨0, [0], [1], []⟩ (by decide) (by decide)).1,
   (join_known_room_appends_waiting wState 1 7 ⟨0, [0], [1], []⟩ (by decide) (by decide)).2
     (by decide)⟩

/-- C6 counterexample: two `join-room` requests by connection 1 for the
known room 7 leave the waiting list `[1, 1]` — the claim's "never contains
duplicate entries" fails. -/
theorem join_room_duplicate_waiting :
    (runTrace initState [.connect 0, .joinRoom 0 7, .connect 1, .joinRoom 1 7,
        .joinRoom 1 7]).map (fun p => (alookup p.1.rooms 7).map Room.waiting)
      = some (some [1, 1]) := by decide

/-- C7 (amended): an `approve-join` whose target is not in the waiting list
is not a no-op: the waiting list and producers are indeed unchanged (the
waiting removal is idempotent) but the target is still appended to the
participants list and `join-approved` is still emitted to it. -/
theorem approve_nonwaiting_mutates (st : SrvState) (a tgt r : Nat) (room : Room)
    (hconn : a ∈ st.connected) (hsr : alookup st.socketRoom a = some r)
    (hroom : alookup st.rooms r = some room) (hnw : tgt ∉ room.waiting) :
    (step st (.approveJoin a tgt)).isSome = true ∧
    ∀ st2 out2 rep2, step st (.approveJoin a tgt) = some (st2, out2, rep2) →
      alookup st2.rooms r = some ({ room with participants := room.participants ++ [tgt] }) ∧
      out2 = [.joinApproved tgt ((room.producers.filter (fun p => p.socketId != tgt)).map
          (fun p => (p.producerId, p.socketId, p.mediaTag)))] := by
  have hfe : room.waiting.filter (fun id => id != tgt) = room.waiting := by
    rw [List.filter_eq_self]
    intro x hx
    have hxt : x ≠ tgt := fun hc => hnw (hc ▸ hx)
    simpa using hxt
  obtain ⟨-, h2⟩ := approve_join_room_assoc_gate st a tgt hconn
  obtain ⟨hsome, hinv⟩ := h2 r room hsr hroom
  refine ⟨hsome, ?_⟩
  intro st2 out2 rep2 h
  obtain ⟨hrm, hout⟩ := hinv st2 out2 rep2 h
  rw [hfe] at hrm
  exact ⟨hrm, hout⟩

/-- C7 counterexample: the owner of the fresh room 7 approves target 9,
which was never waiting; the participants list changes from `[0]` to
`[0, 9]` and `join-approved` is emitted to 9 — not a no-op on the room
state. -/
theorem approve_nonwaiting_not_noop :
    (runTrace initState [.connect 0, .joinRoom 0 7, .approveJoin 0 9]).map
        (fun p => ((alookup p.1.rooms 7).map
            (fun rm => (rm.waiting, rm.participants, rm.producers)), p.2.1))
      = some (some ([], [0, 9], []), [Emit.joinApproved 9 []]) := by decide

/-- C9 (amended): the `deny-join` handler of `server.js` only emits
`join-denied` to the target: the server state — in particular every room's
waiting list — is completely unchanged, so repeating the request has no
further state effect (idempotence holds trivially).  Contrary to the claim,
the target is not removed from the waiting list. -/
theorem deny_join_emit_only (st : SrvState) (s tgt : Nat) (hconn : s ∈ st.connected) :
    step st (.denyJoin s tgt) = some (st, [.joinDenied tgt], .noReply) := by
  simp [step, onDenyJoin, hconn]

/-- C9 witness: concrete instance of `deny_join_emit_only` at `wState`. -/
theorem deny_join_emit_only_witness :
    step wState (.denyJoin 0 1) = some (wState, [.joinDenied 1], .noReply) :=
  deny_join_emit_only wState 0 1 (by decide)

/-- C9 counterexample: the owner denies the waiting connection 1;
`join-denied` is emitted but connection 1 stays in the waiting list,
falsifying "the target identifier is removed from the room's waiting list
if present". -/
theorem deny_join_waiting_kept :
    (runTrace initState [.connect 0, .joinRoom 0 7, .connect 1, .joinRoom 1 7,
        .denyJoin 0 1]).map
        (fun p => ((alookup p.1.rooms 7).map Room.waiting, p.2.1))
      = some (some [1], [Emit.joinRequest 0 1, Emit.joinDenied 1]) := by decide

/-- C7 witness: the hypotheses of `approve_nonwaiting_mutates` hold at
`wState` for requester 0, room 7 and the never-waiting target 9, and the
step is possible. -/
theorem approve_nonwaiting_mutates_witness :
    (step wState (.approveJoin 0 9)).isSome = true :=
  (approve_nonwaiting_mutates wState 0 9 7 ⟨0, [0], [1], []⟩
    (by decide) (by decide) (by decide) (by decide)).1

/-- C2 (amended): waiting/participants disjointness is preserved by every
operation of `server.js` except one: a `join-room` for a known room issued
by a connection that is already among that room's participants (the
unguarded `waiting.push`).  With that single side condition (`joinGuardB`)
every step preserves `DisjAll`.  The unguarded case is reachable and
violates the invariant: `waiting_participants_overlap`. -/
theorem waiting_participants_disjoint_preserved {st st1 : SrvState} {e : Event}
    {out : List Emit} {rep : Reply} (h : step st e = some (st1, out, rep))
    (hd : DisjAll st) (hg : joinGuardB st e = true) : DisjAll st1 :=
  step_disjoint h hd hg

/-- C2 witness: a concrete guarded step (a fresh guest joining room 7 of
`wState`) preserves disjointness. -/
theorem waiting_participants_disjoint_preserved_witness : DisjAll wStateB2 := by
  have hc : step wStateB (.joinRoom 2 7)
      = some (wStateB2, [.joinRequest 0 2], .joinedPending) := by decide
  exact waiting_participants_disjoint_preserved hc (by decide) (by decide)

/-- C2 counterexample: the owner of room 7 re-issues `join-room` for its
own room and is pushed onto the waiting list while staying a participant:
after this reachable trace `waiting = participants = [0]`, so the
disjointness invariant `waiting ∩ participants = ∅` is violated. -/
theorem waiting_participants_overlap :
    (runTrace initState [.connect 0, .joinRoom 0 7, .joinRoom 0 7]).map
        (fun p => (alookup p.1.rooms 7).map (fun rm => (rm.waiting, rm.participants)))
      = some (some ([0], [0])) := by decide

/-- C5: in the `part_004` chat handler, a sender in the room's muted set
gets its `chat-send` silently dropped — no `chat-recv` is emitted to anyone
and, the handler having no callback, no error can be returned — while an
unmuted sender's `chat-send` for an existing room produces exactly one
`chat-recv` broadcast to the room channel. -/
theorem chat_send_mute_semantics (rooms : List (Nat × CRoom)) (sender roomId : Nat)
    (room : CRoom) (text fromLabel : String)
    (hroom : alookup rooms roomId = some room) :
    (sender ∈ room.muted → chatSend rooms sender roomId text fromLabel = []) ∧
    (sender ∉ room.muted →
        chatSend rooms sender roomId text fromLabel = [.chatRecv roomId text fromLabel]) := by
  unfold chatSend
  rw [hroom]
  constructor
  · intro hm
    simp [hm]
  · intro hm
    simp [hm]

/-- C5 witness: in `wCRooms` the muted connection 5 gets nothing broadcast,
the unmuted connection 6 gets the full broadcast. -/
theorem chat_send_mute_semantics_witness :
    chatSend wCRooms 5 1 "hi" "alice" = [] ∧
    chatSend wCRooms 6 1 "hi" "bob" = [CEmit.chatRecv 1 "hi" "bob"] :=
  ⟨(chat_send_mute_semantics wCRooms 5 1 ⟨0, [0, 5, 6], [], [5]⟩ "hi" "alice" rfl).1
      (by decide),
   (chat_send_mute_semantics wCRooms 6 1 ⟨0, [0, 5, 6], [], [5]⟩ "hi" "bob" rfl).2
      (by decide)⟩

/-- C8 (amended): a successful `produce` by a room-associated peer emits
`newProducer` (carrying the fresh producer id and the mediaTag) once per
occurrence of every entry of the participants list other than the producer,
and never to the producing peer itself; in particular, whenever the
participants list is duplicate-free, every other participant receives the
event exactly once.  (With duplicated participant entries — reachable
through repeated approvals — a peer receives it more than once:
`new_producer_duplicate`.) -/
theorem produce_fanout_per_occurrence (st : SrvState) (s tid : Nat) (tag : String)
    (peer : Peer) (r : Nat) (room : Room)
    (hconn : s ∈ st.connected) (hpeer : alookup st.peers s = some peer)
    (htid : tid ∈ peer.transports) (hsr : alookup st.socketRoom s = some r)
    (hroom : alookup st.rooms r = some room) :
    (step st (.produce s tid tag)).isSome = true ∧
    ∀ st2 out2 rep2, step st (.produce s tid tag) = some (st2, out2, rep2) →
      out2 = (room.participants.filter (fun id => id != s)).map
          (fun id => Emit.newProducer id st.nextProducer s tag) ∧
      out2.countP (newProducerTo s) = 0 ∧
      (room.participants.Nodup → ∀ j ∈ room.participants, j ≠ s →
          out2.countP (newProducerTo j) = 1) := by
  constructor
  · simp [step, onProduce, hconn, hpeer, htid, hsr, hroom]
  · intro st2 out2 rep2 h
    simp only [step, onProduce] at h
    rw [if_neg (not_not_intro hconn)] at h
    simp only [hpeer] at h
    rw [if_neg (not_not_intro htid)] at h
    simp only [hsr, hroom] at h
    simp only [Option.some.injEq, Prod.mk.injEq] at h
    obtain ⟨-, rfl, rfl⟩ := h
    refine ⟨rfl, ?_, ?_⟩
    · rw [List.countP_map, List.countP_eq_zero]
      intro a ha
      have has := (List.mem_filter.mp ha).2
      simpa [newProducerTo] using by simpa using has
    · intro hnd j hj hjs
      rw [List.countP_map]
      have hcp : List.countP (newProducerTo j ∘ fun id => Emit.newProducer id st.nextProducer s tag)
          (room.participants.filter (fun id => id != s))
          = List.count j (room.participants.filter (fun id => id != s)) := by
        apply List.countP_congr
        intro a ha
        simp [newProducerTo, Function.comp, BEq.comm]
      rw [hcp, List.count_filter (by simpa using hjs), List.count_eq_one_of_mem hnd hj]

/-- C8 witness: the owner 0 of room 7 of `wStateP` (participants `[0, 1]`,
duplicate-free) produces; connection 1 receives exactly one `newProducer`
and connection 0 none. -/
theorem produce_fanout_per_occurrence_witness :
    (step wStateP (.produce 0 0 "camera")).isSome = true := by
  exact (produce_fanout_per_occurrence wStateP 0 0 "camera" ⟨[0], [], []⟩ 7
    ⟨0, [0, 1], [], []⟩ (by decide) (by decide) (by decide) (by decide) (by decide)).1

/-- C8 counterexample: approving target 1 twice leaves participants
`[0, 1, 1]`; the owner's produce then emits `newProducer` to connection 1
twice — "exactly once to every other current participant" fails on the
duplicated entry. -/
theorem new_producer_duplicate :
    (runTrace initState [.connect 0, .joinRoom 0 7, .connect 1, .joinRoom 1 7,
        .approveJoin 0 1, .approveJoin 0 1, .createTransport 0, .produce 0 0 "camera"]).map
        (fun p => ((alookup p.1.rooms 7).map Room.participants,
                   p.2.1.countP (newProducerTo 1)))
      = some (some [0, 1, 1], 2) := by decide

/-- Along a successful run containing no `code-set` for room `r`, the code
store entry of `r` is untouched. -/
theorem runTrace_codeStore (r : Nat) :
    ∀ (evs : List Event) (st stF : SrvState) (ems : List Emit) (reps : List Reply),
      runTrace st evs = some (stF, ems, reps) →
      (∀ e ∈ evs, isCodeSetFor r e = false) →
      alookup stF.codeStore r = alookup st.codeStore r := by
  intro evs
  induction evs with
  | nil =>
    intro st stF ems reps h hne
    simp only [runTrace, Option.some.injEq, Prod.mk.injEq] at h
    rw [← h.1]
  | cons e rest ih =>
    intro st stF ems reps h hne
    simp only [runTrace] at h
    cases hstep : step st e with
    | none =>
      rw [hstep] at h
      exact Option.noConfusion h
    | some res =>
      rw [hstep] at h
      obtain ⟨st1, out, rep⟩ := res
      dsimp only at h
      cases hrun : runTrace st1 rest with
      | none =>
        rw [hrun] at h
        exact Option.noConfusion h
      | some res2 =>
        rw [hrun] at h
        obtain ⟨st2, outs, reps2⟩ := res2
        dsimp only at h
        simp only [Option.some.injEq, Prod.mk.injEq] at h
        obtain ⟨rfl, -, -⟩ := h
        rw [ih st1 _ outs reps2 hrun (fun e2 he2 => hne e2 (List.mem_cons_of_mem _ he2))]
        exact step_codeStore hstep r (hne e (List.mem_cons_self _ _))

/-- C10: `code-get` defaults to the empty string and never fails.  After
any successful run from the initial state containing no `code-set` for room
`r`, a `code-get` for `r` answers `codeText ""`; and in every state, for
every room id — stored or not, existing or not — `code-get` answers
`codeText` of the stored text (defaulted to `""`), never an error. -/
theorem code_get_default_empty (r : Nat) (evs : List Event) (stF : SrvState)
    (ems : List Emit) (reps : List Reply)
    (hrun : runTrace initState evs = some (stF, ems, reps))
    (hns : ∀ e ∈ evs, isCodeSetFor r e = false) :
    (∀ s, s ∈ stF.connected → step stF (.codeGet s r) = some (stF, [], .codeText "")) ∧
    (∀ (st : SrvState) (s rid : Nat), s ∈ st.connected →
        step st (.codeGet s rid)
          = some (st, [], .codeText ((alookup st.codeStore rid).getD ""))) := by
  constructor
  · intro s hs
    have hcs : alookup stF.codeStore r = none := by
      rw [runTrace_codeStore r evs initState stF ems reps hrun hns]
      rfl
    simp [step, onCodeGet, hs, hcs]
  · intro st s rid hs
    simp [step, onCodeGet, hs]

/-- C10 witness: after a run that performed a `code-set` only for room 9,
`code-get` for the never-written room 7 answers the empty string and
`code-get` for room 9 answers the stored text. -/
theorem code_get_default_empty_witness :
    step wStateCode (.codeGet 0 7) = some (wStateCode, [], .codeText "") ∧
    step wStateCode (.codeGet 0 9) = some (wStateCode, [], .codeText "x") := by
  have h := code_get_default_empty 7 [.connect 0, .joinRoom 0 7, .codeSet 0 9 "x"]
      wStateCode [.codeUpdate 9 "x"] [.noReply, .joinedOwner [], .noReply]
      (by decide) (by decide)
  exact ⟨h.1 0 (by decide), h.2 wStateCode 0 9 (by decide)⟩

/-- C3: grace-period semantics of an owner disconnect in `server.js` (the
30 s delay itself is not modelled; only the cancel-versus-fire behavior
is).  Disconnecting the connected owner `o` of room `r` schedules a fresh
grace timeout for `r` and emits nothing.  Thereafter, in any reachable
state in which that timeout is still pending: (fire branch) the timeout can
fire, and firing it emits exactly one `room-closed`, addressed to the
room's current participants, deletes `r` from the registry, and the
timeout can never fire again afterwards; (cancel branch) any `join-room`
naming `r` clears the timeout (no pending timeout with its id remains),
emits no `room-closed`, and from then on, in every reachable state, room
`r` is still in the registry and the timeout can never fire — so
cancellation and room teardown are mutually exclusive outcomes. -/
theorem owner_grace_cancel_xor_close (st : SrvState) (r o : Nat) (room : Room)
    (hwf : Wf st) (hroom : alookup st.rooms r = some room) (howner : room.ownerId = o)
    (hconn : o ∈ st.connected) (hsr : alookup st.socketRoom o = some r) :
    ∃ st1, step st (.disconnect o) = some (st1, [], .noReply) ∧
      (st.nextTimer, r) ∈ st1.pending ∧
      ∀ st2, Reaches st1 st2 → (st.nextTimer, r) ∈ st2.pending →
        ((∃ room2 st3,
            alookup st2.rooms r = some room2 ∧
            step st2 (.timerFire st.nextTimer)
              = some (st3, [.roomClosed room2.participants], .noReply) ∧
            alookup st3.rooms r = none ∧
            ∀ st4, Reaches st3 st4 → step st4 (.timerFire st.nextTimer) = none) ∧
         (∀ a st3 out3 rep3, step st2 (.joinRoom a r) = some (st3, out3, rep3) →
            (∀ q ∈ st3.pending, q.1 ≠ st.nextTimer) ∧
            (∀ e ∈ out3, ∀ rcpts, e ≠ .roomClosed rcpts) ∧
            ∀ st4, Reaches st3 st4 →
              (alookup st4.rooms r).isSome = true ∧
              step st4 (.timerFire st.nextTimer) = none)) := by
  have hdisc : step st (.disconnect o) = some
      ({ st with connected := st.connected.filter (fun x => x != o),
                 timers := aset st.timers r st.nextTimer,
                 pending := st.pending ++ [(st.nextTimer, r)],
                 nextTimer := st.nextTimer + 1,
                 peers := adel st.peers o }, [], .noReply) := by
    simp [step, onDisconnect, hconn, hsr, hroom, howner]
  refine ⟨_, hdisc, by simp, ?_⟩
  intro st2 hreach hp2
  have hwf2 : Wf st2 := wf_reaches hreach (wf_step hdisc hwf)
  obtain ⟨htimers2, hlt2, hgone2⟩ := hwf2.2.2.1 (st.nextTimer, r) hp2
  obtain ⟨room2, hroom2, hogone2⟩ := ownerGoneB_iff.mp hgone2
  constructor
  · -- fire branch
    have hfs : (st2.pending.find? (fun q2 => q2.1 == st.nextTimer)).isSome = true :=
      List.find?_isSome.mpr ⟨(st.nextTimer, r), hp2, by simp⟩
    obtain ⟨q0, hfind⟩ := Option.isSome_iff_exists.mp hfs
    have hq01 : q0.1 = st.nextTimer := by simpa using List.find?_some hfind
    have hq0mem := List.mem_of_find?_eq_some hfind
    have hq02 : q0.2 = r := hwf2.2.2.2 q0 hq0mem (st.nextTimer, r) hp2 (by rw [hq01])
    refine ⟨room2,
      { st2 with pending := st2.pending.filter (fun q2 => q2.1 != st.nextTimer),
                 rooms := adel st2.rooms r }, hroom2, ?_, ?_, ?_⟩
    · simp only [step, onTimerFire, hfind, hq02, hroom2]
    · rw [alookup_adel, if_pos rfl]
    · intro st4 hr4
      refine deadTimer_no_fire (deadTimer_reaches hr4 ⟨hlt2, ?_⟩)
      intro q hq
      have := (List.mem_filter.mp hq).2
      simpa using this
  · -- cancel branch
    intro a st3 out3 rep3 hstep3
    simp only [step, onJoinRoom] at hstep3
    split at hstep3
    · exact Option.noConfusion hstep3
    · rename_i hconn3
      rw [hroom2] at hstep3
      simp only [Option.some.injEq, Prod.mk.injEq] at hstep3
      obtain ⟨hst3, rfl, rfl⟩ := hstep3
      have hpend3 : st3.pending = st2.pending.filter (fun q2 => q2.1 != st.nextTimer) := by
        rw [← hst3]
        simp only [clearPending, htimers2]
      have hdead3 : DeadTimer st.nextTimer st3 := by
        refine ⟨by rw [← hst3]; exact hlt2, ?_⟩
        intro q hq
        rw [hpend3] at hq
        have := (List.mem_filter.mp hq).2
        simpa using this
      have halive3 : RoomAlive r room2.ownerId st3 := by
        refine ⟨⟨{ room2 with waiting := room2.waiting ++ [a] }, ?_, rfl⟩, ?_, ?_, ?_⟩
        · rw [← hst3]
          show alookup (aset st2.rooms r _) r = _
          rw [alookup_aset, if_pos rfl]
        · intro q hq hq2
          rw [hpend3] at hq
          obtain ⟨hqmem, hqne⟩ := List.mem_filter.mp hq
          have hqt := (hwf2.2.2.1 q hqmem).1
          rw [hq2, htimers2] at hqt
          have : q.1 = st.nextTimer := (Option.some.inj hqt).symm
          rw [this] at hqne
          simp at hqne
        · rw [← hst3]
          exact hogone2
        · rw [← hst3]
          exact hwf2.2.1 (r, room2) (alookup_mem hroom2)
      refine ⟨?_, ?_, ?_⟩
      · exact hdead3.2
      · intro e he rcpts
        simp only [List.mem_singleton] at he
        rw [he]
        simp
      · intro st4 hr4
        obtain ⟨⟨room4, hroom4, -⟩, -, -, -⟩ := roomAlive_reaches hr4 halive3
        exact ⟨by rw [hroom4]; rfl,
          deadTimer_no_fire (deadTimer_reaches hr4 hdead3)⟩

/-- C3 witness: the grace-period theorem applied at the concrete reachable
state `wState3` (well-formed by computation), whose room 1 is owned by the
connected socket 0. -/
theorem owner_grace_cancel_xor_close_witness :
    ∃ st1, step wState3 (.disconnect 0) = some (st1, [], .noReply) ∧
      (wState3.nextTimer, 1) ∈ st1.pending ∧
      ∀ st2, Reaches st1 st2 → (wState3.nextTimer, 1) ∈ st2.pending →
        ((∃ room2 st3,
            alookup st2.rooms 1 = some room2 ∧
            step st2 (.timerFire wState3.nextTimer)
              = some (st3, [.roomClosed room2.participants], .noReply) ∧
            alookup st3.rooms 1 = none ∧
            ∀ st4, Reaches st3 st4 → step st4 (.timerFire wState3.nextTimer) = none) ∧
         (∀ a st3 out3 rep3, step st2 (.joinRoom a 1) = some (st3, out3, rep3) →
            (∀ q ∈ st3.pending, q.1 ≠ wState3.nextTimer) ∧
            (∀ e ∈ out3, ∀ rcpts, e ≠ .roomClosed rcpts) ∧
            ∀ st4, Reaches st3 st4 →
              (alookup st4.rooms 1).isSome = true ∧
              step st4 (.timerFire wState3.nextTimer) = none)) :=
  owner_grace_cancel_xor_close wState3 1 0 ⟨0, [0], [], []⟩
    (by decide) (by decide) rfl (by decide) (by decide)

end ConfRTC
